import Mathlib

/-!
OpenMM `vectorize8.h`: eight-lane AVX vector wrappers

A shallow embedding of `openmmapi/include/openmm/internal/vectorize8.h`.

* A register is a record of lanes, lane 0 being the least significant
  32 bits.  `M128 α` is `__m128`, `M256 α` is `__m256` / `__m256i`.
* Data-movement intrinsics are polymorphic in the lane contents `α`.
* Integer registers hold 32-bit patterns as natural numbers below `2^32`.
* Single-precision values are 32-bit patterns wrapped in `F32`; the
  comparison predicates and the arithmetic on them follow IEEE-754 binary32
  as implemented by SSE/AVX under the default `MXCSR` (round to nearest
  even, no flush-to-zero).
* The Intel intrinsics are modelled after the "Operation" pseudo-code of the
  Intel Intrinsics Guide.
-/

namespace OpenMM

/-! ## Registers -/

/-- Four 32-bit lanes of an `__m128` register; `e0` is the lowest lane. -/
structure M128 (α : Type) where
  e0 : α
  e1 : α
  e2 : α
  e3 : α
deriving DecidableEq

/-- Eight 32-bit lanes of an `__m256` or `__m256i` register; `e0` is the lowest lane. -/
structure M256 (α : Type) where
  e0 : α
  e1 : α
  e2 : α
  e3 : α
  e4 : α
  e5 : α
  e6 : α
  e7 : α
deriving DecidableEq

/-- Lane `i` of a 128-bit register. -/
def M128.lane {α : Type} (v : M128 α) : Fin 4 → α
  | ⟨0, _⟩ => v.e0
  | ⟨1, _⟩ => v.e1
  | ⟨2, _⟩ => v.e2
  | ⟨_ + 3, _⟩ => v.e3

/-- Lane `i` of a 256-bit register. -/
def M256.lane {α : Type} (v : M256 α) : Fin 8 → α
  | ⟨0, _⟩ => v.e0
  | ⟨1, _⟩ => v.e1
  | ⟨2, _⟩ => v.e2
  | ⟨3, _⟩ => v.e3
  | ⟨4, _⟩ => v.e4
  | ⟨5, _⟩ => v.e5
  | ⟨6, _⟩ => v.e6
  | ⟨_ + 7, _⟩ => v.e7

/-- Lanewise map over a 256-bit register. -/
def M256.map {α β : Type} (f : α → β) (v : M256 α) : M256 β :=
  ⟨f v.e0, f v.e1, f v.e2, f v.e3, f v.e4, f v.e5, f v.e6, f v.e7⟩

/-- Lanewise combination of two 256-bit registers. -/
def M256.zipWith {α β γ : Type} (f : α → β → γ) (a : M256 α) (b : M256 β) : M256 γ :=
  ⟨f a.e0 b.e0, f a.e1 b.e1, f a.e2 b.e2, f a.e3 b.e3,
   f a.e4 b.e4, f a.e5 b.e5, f a.e6 b.e6, f a.e7 b.e7⟩

/-! ## Data-movement intrinsics -/

section Movement
variable {α : Type}

/-- Intrinsic `_mm_unpacklo_ps`: interleave the low halves of `a` and `b`. -/
def _mm_unpacklo_ps (a b : M128 α) : M128 α := ⟨a.e0, b.e0, a.e1, b.e1⟩

/-- Intrinsic `_mm_unpackhi_ps`: interleave the high halves of `a` and `b`. -/
def _mm_unpackhi_ps (a b : M128 α) : M128 α := ⟨a.e2, b.e2, a.e3, b.e3⟩

/-- Intrinsic `_mm_movelh_ps`: low half of `a`, then low half of `b`. -/
def _mm_movelh_ps (a b : M128 α) : M128 α := ⟨a.e0, a.e1, b.e0, b.e1⟩

/-- Intrinsic `_mm_movehl_ps`: high half of `b`, then high half of `a`. -/
def _mm_movehl_ps (a b : M128 α) : M128 α := ⟨b.e2, b.e3, a.e2, a.e3⟩

/-- Intrinsic `_mm256_set1_ps`: broadcast one scalar to all eight lanes. -/
def _mm256_set1_ps (a : α) : M256 α := ⟨a, a, a, a, a, a, a, a⟩

/-- Intrinsic `_mm256_set_ps`: the LAST argument `e0` goes to lane 0, the first to lane 7. -/
def _mm256_set_ps (e7 e6 e5 e4 e3 e2 e1 e0 : α) : M256 α :=
  ⟨e0, e1, e2, e3, e4, e5, e6, e7⟩

/-- Intrinsic `_mm256_castps256_ps128`: the low 128 bits of `a`. -/
def _mm256_castps256_ps128 (a : M256 α) : M128 α := ⟨a.e0, a.e1, a.e2, a.e3⟩

/-- Intrinsic `_mm256_extractf128_ps`: bit 0 of `imm8` selects the low (0) or high (1)
128 bits of `a`. -/
def _mm256_extractf128_ps (a : M256 α) (imm8 : Nat) : M128 α :=
  if imm8 % 2 = 0 then ⟨a.e0, a.e1, a.e2, a.e3⟩ else ⟨a.e4, a.e5, a.e6, a.e7⟩

/-- Intrinsic `_mm256_castps128_ps256`: the low 128 bits are `a`; the high 128 bits are
undefined, which is modelled by the extra argument `undef` that stands for
whatever the register happens to hold. -/
def _mm256_castps128_ps256 (a : M128 α) (undef : M128 α) : M256 α :=
  ⟨a.e0, a.e1, a.e2, a.e3, undef.e0, undef.e1, undef.e2, undef.e3⟩

/-- Intrinsic `_mm256_insertf128_ps`: copy `a`, then overwrite the low (bit 0 of `imm8`
clear) or high (bit 0 set) 128 bits with `b`. -/
def _mm256_insertf128_ps (a : M256 α) (b : M128 α) (imm8 : Nat) : M256 α :=
  if imm8 % 2 = 0 then ⟨b.e0, b.e1, b.e2, b.e3, a.e4, a.e5, a.e6, a.e7⟩
  else ⟨a.e0, a.e1, a.e2, a.e3, b.e0, b.e1, b.e2, b.e3⟩

end Movement

/-! ## The vector classes -/

/-- Modelled from the spec: the four-lane `fvec4` class of `vectorize.h`
(the "NarrowVector" supplied externally), a wrapper around one `__m128`
holding lanes 0-3 in order. -/
structure fvec4 (α : Type) where
  val : M128 α
deriving DecidableEq

/-- Class `fvec8`: an eight element vector of floats, wrapping one `__m256`. -/
structure fvec8 (α : Type) where
  val : M256 α
deriving DecidableEq

/-- Lane `i` of an `fvec4`. -/
def fvec4.lane {α : Type} (v : fvec4 α) (i : Fin 4) : α := v.val.lane i

/-- Lane `i` of an `fvec8`. -/
def fvec8.lane {α : Type} (v : fvec8 α) (i : Fin 8) : α := v.val.lane i

section Transpose
variable {α : Type}

/-- Method `fvec8::lowerVec`. -/
def fvec8.lowerVec (v : fvec8 α) : fvec4 α := ⟨_mm256_castps256_ps128 v.val⟩

/-- Method `fvec8::upperVec`. -/
def fvec8.upperVec (v : fvec8 α) : fvec4 α := ⟨_mm256_extractf128_ps v.val 1⟩

/-- The macro `_MM_TRANSPOSE4_PS(row0, row1, row2, row3)` of `xmmintrin.h`,
which overwrites its four arguments; the new values are returned. -/
def _MM_TRANSPOSE4_PS (row0 row1 row2 row3 : fvec4 α) :
    fvec4 α × fvec4 α × fvec4 α × fvec4 α :=
  let tmp0 := _mm_unpacklo_ps row0.val row1.val
  let tmp2 := _mm_unpacklo_ps row2.val row3.val
  let tmp1 := _mm_unpackhi_ps row0.val row1.val
  let tmp3 := _mm_unpackhi_ps row2.val row3.val
  (⟨_mm_movelh_ps tmp0 tmp2⟩, ⟨_mm_movehl_ps tmp2 tmp0⟩,
   ⟨_mm_movelh_ps tmp1 tmp3⟩, ⟨_mm_movehl_ps tmp3 tmp1⟩)

/-- The overload `transpose(fvec4 in1, ..., fvec4 in8, fvec8& out1, ..., fvec8& out4)`.
The four outputs are returned as a tuple.  `u1 .. u4` are the undefined upper
halves left by `_mm256_castps128_ps256` before `_mm256_insertf128_ps`
overwrites them. -/
def transpose8x4 (in1 in2 in3 in4 in5 in6 in7 in8 : fvec4 α) (u1 u2 u3 u4 : M128 α) :
    fvec8 α × fvec8 α × fvec8 α × fvec8 α :=
  match _MM_TRANSPOSE4_PS in1 in2 in3 in4, _MM_TRANSPOSE4_PS in5 in6 in7 in8 with
  | (in1, in2, in3, in4), (in5, in6, in7, in8) =>
    let out1 : fvec8 α := ⟨_mm256_castps128_ps256 in1.val u1⟩
    let out1 : fvec8 α := ⟨_mm256_insertf128_ps out1.val in5.val 1⟩
    let out2 : fvec8 α := ⟨_mm256_castps128_ps256 in2.val u2⟩
    let out2 : fvec8 α := ⟨_mm256_insertf128_ps out2.val in6.val 1⟩
    let out3 : fvec8 α := ⟨_mm256_castps128_ps256 in3.val u3⟩
    let out3 : fvec8 α := ⟨_mm256_insertf128_ps out3.val in7.val 1⟩
    let out4 : fvec8 α := ⟨_mm256_castps128_ps256 in4.val u4⟩
    let out4 : fvec8 α := ⟨_mm256_insertf128_ps out4.val in8.val 1⟩
    (out1, out2, out3, out4)

/-- The overload `transpose(fvec8 in1, ..., fvec8 in4, fvec4& out1, ..., fvec4& out8)`.
The eight outputs are returned as a tuple. -/
def transpose4x8 (in1 in2 in3 in4 : fvec8 α) :
    fvec4 α × fvec4 α × fvec4 α × fvec4 α × fvec4 α × fvec4 α × fvec4 α × fvec4 α :=
  let out1 := in1.lowerVec
  let out2 := in2.lowerVec
  let out3 := in3.lowerVec
  let out4 := in4.lowerVec
  match _MM_TRANSPOSE4_PS out1 out2 out3 out4 with
  | (out1, out2, out3, out4) =>
    let out5 := in1.upperVec
    let out6 := in2.upperVec
    let out7 := in3.upperVec
    let out8 := in4.upperVec
    match _MM_TRANSPOSE4_PS out5 out6 out7 out8 with
    | (out5, out6, out7, out8) => (out1, out2, out3, out4, out5, out6, out7, out8)

/-- The `j`-th of eight values. -/
def nth8 {β : Type} (x0 x1 x2 x3 x4 x5 x6 x7 : β) : Fin 8 → β
  | ⟨0, _⟩ => x0
  | ⟨1, _⟩ => x1
  | ⟨2, _⟩ => x2
  | ⟨3, _⟩ => x3
  | ⟨4, _⟩ => x4
  | ⟨5, _⟩ => x5
  | ⟨6, _⟩ => x6
  | ⟨_ + 7, _⟩ => x7

/-- The `i`-th of four values. -/
def nth4 {β : Type} (x0 x1 x2 x3 : β) : Fin 4 → β
  | ⟨0, _⟩ => x0
  | ⟨1, _⟩ => x1
  | ⟨2, _⟩ => x2
  | ⟨_ + 3, _⟩ => x3

/-- The four outputs of `transpose8x4`, indexed by field number. -/
def packOut (o : fvec8 α × fvec8 α × fvec8 α × fvec8 α) : Fin 4 → fvec8 α :=
  nth4 o.1 o.2.1 o.2.2.1 o.2.2.2

/-- The eight outputs of `transpose4x8`, indexed by record number. -/
def unpackOut
    (o : fvec4 α × fvec4 α × fvec4 α × fvec4 α × fvec4 α × fvec4 α × fvec4 α × fvec4 α) :
    Fin 8 → fvec4 α :=
  nth8 o.1 o.2.1 o.2.2.1 o.2.2.2.1 o.2.2.2.2.1 o.2.2.2.2.2.1 o.2.2.2.2.2.2.1 o.2.2.2.2.2.2.2

end Transpose


/-! ## Memory, constructors, load and store -/

/-- Memory seen through a `float*` or `int*`: element address to element. -/
abbrev Mem (α : Type) := Nat → α

section LoadStore
variable {α : Type}

/-- Intrinsics `_mm256_loadu_ps` / `_mm256_loadu_si256`: read eight consecutive elements,
the one at the lowest address into lane 0. -/
def _mm256_loadu_ps (mem : Mem α) (p : Nat) : M256 α :=
  ⟨mem p, mem (p + 1), mem (p + 2), mem (p + 3), mem (p + 4), mem (p + 5), mem (p + 6),
   mem (p + 7)⟩

/-- Intrinsics `_mm256_storeu_ps` / `_mm256_storeu_si256`: write the eight lanes to eight
consecutive elements, lane 0 at the lowest address. -/
def _mm256_storeu_ps (mem : Mem α) (p : Nat) (a : M256 α) : Mem α :=
  fun q =>
    if q = p then a.e0 else if q = p + 1 then a.e1 else if q = p + 2 then a.e2
    else if q = p + 3 then a.e3 else if q = p + 4 then a.e4 else if q = p + 5 then a.e5
    else if q = p + 6 then a.e6 else if q = p + 7 then a.e7 else mem q

/-- Constructor `fvec8(float v)`. -/
def fvec8.mk1 (v : α) : fvec8 α := ⟨_mm256_set1_ps v⟩

/-- Constructor `fvec8(float v1, ..., float v8)`. -/
def fvec8.mk8 (v1 v2 v3 v4 v5 v6 v7 v8 : α) : fvec8 α :=
  ⟨_mm256_set_ps v8 v7 v6 v5 v4 v3 v2 v1⟩

/-- Constructor `fvec8(const float* v)`. -/
def fvec8.load (mem : Mem α) (v : Nat) : fvec8 α := ⟨_mm256_loadu_ps mem v⟩

/-- Method `fvec8::store(float* v)`; the memory after the call is returned. -/
def fvec8.store (self : fvec8 α) (mem : Mem α) (v : Nat) : Mem α :=
  _mm256_storeu_ps mem v self.val

end LoadStore

/-! ## Integer vectors -/

/-- The 32-bit twos-complement pattern of a C `int` (also the result of the
modular conversion of an `unsigned` constant to `int`). -/
def int32Bits (v : Int) : Nat := (v % 2 ^ 32).toNat

/-- The C `int` held by a 32-bit pattern. -/
def bitsInt32 (b : Nat) : Int := if b < 2 ^ 31 then (b : Int) else (b : Int) - 2 ^ 32

/-- Values representable in a 32-bit `int`. -/
def IsInt32 (v : Int) : Prop := -2 ^ 31 ≤ v ∧ v < 2 ^ 31

instance (v : Int) : Decidable (IsInt32 v) := by unfold IsInt32; infer_instance

/-- Intrinsic `_mm256_set1_epi32`: broadcast one `int` to all eight lanes. -/
def _mm256_set1_epi32 (a : Int) : M256 Nat := _mm256_set1_ps (int32Bits a)

/-- Intrinsic `_mm256_set_epi32`: the LAST argument `e0` goes to lane 0. -/
def _mm256_set_epi32 (e7 e6 e5 e4 e3 e2 e1 e0 : Int) : M256 Nat :=
  _mm256_set_ps (int32Bits e7) (int32Bits e6) (int32Bits e5) (int32Bits e4)
    (int32Bits e3) (int32Bits e2) (int32Bits e1) (int32Bits e0)

/-- Intrinsic `_mm256_loadu_si256` through an `int*`. -/
def _mm256_loadu_si256 (mem : Mem Int) (p : Nat) : M256 Nat :=
  (_mm256_loadu_ps mem p).map int32Bits

/-- Intrinsic `_mm256_storeu_si256` through an `int*`. -/
def _mm256_storeu_si256 (mem : Mem Int) (p : Nat) (a : M256 Nat) : Mem Int :=
  _mm256_storeu_ps mem p (a.map bitsInt32)

/-- Intrinsic `_mm256_testz_si256`: 1 when the bitwise AND of all 256 bits of `a` and
`b` is zero, else 0. -/
def _mm256_testz_si256 (a b : M256 Nat) : Nat :=
  if a.e0 &&& b.e0 = 0 ∧ a.e1 &&& b.e1 = 0 ∧ a.e2 &&& b.e2 = 0 ∧ a.e3 &&& b.e3 = 0 ∧
     a.e4 &&& b.e4 = 0 ∧ a.e5 &&& b.e5 = 0 ∧ a.e6 &&& b.e6 = 0 ∧ a.e7 &&& b.e7 = 0
  then 1 else 0

/-- Class `ivec8`: an eight element vector of ints, wrapping one `__m256i`
whose lanes are 32-bit patterns. -/
structure ivec8 where
  val : M256 Nat
deriving DecidableEq

/-- Lane `i` of an `ivec8`, as a 32-bit pattern. -/
def ivec8.lane (v : ivec8) (i : Fin 8) : Nat := v.val.lane i

/-- Every lane of the register is a 32-bit pattern. -/
def ivec8.WF (v : ivec8) : Prop := ∀ i : Fin 8, v.lane i < 2 ^ 32

instance (v : ivec8) : Decidable v.WF := by unfold ivec8.WF; infer_instance

/-- Constructor `ivec8(int v)`. -/
def ivec8.mk1 (v : Int) : ivec8 := ⟨_mm256_set1_epi32 v⟩

/-- Constructor `ivec8(int v1, ..., int v8)`. -/
def ivec8.mk8 (v1 v2 v3 v4 v5 v6 v7 v8 : Int) : ivec8 :=
  ⟨_mm256_set_epi32 v8 v7 v6 v5 v4 v3 v2 v1⟩

/-- Constructor `ivec8(const int* v)`. -/
def ivec8.load (mem : Mem Int) (v : Nat) : ivec8 := ⟨_mm256_loadu_si256 mem v⟩

/-- Method `ivec8::store(int* v)`; the memory after the call is returned. -/
def ivec8.store (self : ivec8) (mem : Mem Int) (v : Nat) : Mem Int :=
  _mm256_storeu_si256 mem v self.val

/-- Function `any(ivec8 v)`: the C `!` of the `int` returned by the test. -/
def any (v : ivec8) : Bool :=
  _mm256_testz_si256 v.val (_mm256_set1_epi32 0xFFFFFFFF) == 0


/-! ## Single-precision values -/

/-- A C `float`: the 32-bit pattern of an IEEE-754 binary32 value
(bit 31 sign, bits 30-23 biased exponent, bits 22-0 fraction). -/
structure F32 where
  bits : Nat
deriving DecidableEq

namespace F32

/-- The lane value with all 32 bits set. -/
def allOnes : F32 := ⟨0xFFFFFFFF⟩

/-- The lane value with all 32 bits clear. -/
def allZeros : F32 := ⟨0⟩

/-- Sign bit. -/
def sign (x : F32) : Bool := decide (x.bits / 2 ^ 31 % 2 = 1)

/-- Biased exponent field. -/
def expo (x : F32) : Nat := x.bits / 2 ^ 23 % 256

/-- Fraction field. -/
def mant (x : F32) : Nat := x.bits % 2 ^ 23

/-- The 31 bits below the sign. -/
def magnitude (x : F32) : Nat := x.bits % 2 ^ 31

/-- NaN: exponent all ones, fraction nonzero. -/
def isNaN (x : F32) : Bool := x.expo == 255 && x.mant != 0

/-- Infinity: exponent all ones, fraction zero. -/
def isInf (x : F32) : Bool := x.expo == 255 && x.mant == 0

/-- Positive or negative zero. -/
def isZero (x : F32) : Bool := x.magnitude == 0

/-- Position of a non-NaN value in the numeric order: binary32 is
sign-magnitude, so the order of the values is the order of the signed
magnitudes, both zeros being equal. -/
def key (x : F32) : Int := if x.sign then -(x.magnitude : Int) else (x.magnitude : Int)

end F32

/-- The four mutually exclusive outcomes of an IEEE-754 comparison. -/
inductive FCmp where
  | lt
  | eq
  | gt
  | un
deriving DecidableEq

/-- IEEE-754 comparison of two binary32 values: unordered when either is NaN. -/
def F32.compare (a b : F32) : FCmp :=
  if a.isNaN || b.isNaN then FCmp.un
  else if a.key < b.key then FCmp.lt
  else if a.key = b.key then FCmp.eq
  else FCmp.gt

/-! ### The comparison predicates of `_mm256_cmp_ps` -/

/-- Constant `_CMP_EQ_OQ`: equal (ordered, non-signaling). -/
def _CMP_EQ_OQ : Nat := 0x00
/-- Constant `_CMP_NEQ_OQ`: not-equal (ordered, non-signaling). -/
def _CMP_NEQ_OQ : Nat := 0x0c
/-- Constant `_CMP_LT_OQ`: less-than (ordered, non-signaling). -/
def _CMP_LT_OQ : Nat := 0x11
/-- Constant `_CMP_LE_OQ`: less-than-or-equal (ordered, non-signaling). -/
def _CMP_LE_OQ : Nat := 0x12
/-- Constant `_CMP_GE_OQ`: greater-than-or-equal (ordered, non-signaling). -/
def _CMP_GE_OQ : Nat := 0x1d
/-- Constant `_CMP_GT_OQ`: greater-than (ordered, non-signaling). -/
def _CMP_GT_OQ : Nat := 0x1e

/-- Truth table of the 32 predicates of `VCMPPS` (Intel SDM, "Comparison
Predicate for CMPPD and CMPPS"): bits 3-0 of the immediate select the
relation, bit 4 only changes whether a quiet NaN signals. -/
def cmpPredicate (imm8 : Nat) (r : FCmp) : Bool :=
  match imm8 % 16 with
  | 0 => r = FCmp.eq
  | 1 => r = FCmp.lt
  | 2 => r = FCmp.lt ∨ r = FCmp.eq
  | 3 => r = FCmp.un
  | 4 => r ≠ FCmp.eq
  | 5 => r ≠ FCmp.lt
  | 6 => r = FCmp.gt ∨ r = FCmp.un
  | 7 => r ≠ FCmp.un
  | 8 => r = FCmp.eq ∨ r = FCmp.un
  | 9 => r = FCmp.lt ∨ r = FCmp.un
  | 10 => r ≠ FCmp.gt
  | 11 => false
  | 12 => r = FCmp.lt ∨ r = FCmp.gt
  | 13 => r = FCmp.gt ∨ r = FCmp.eq
  | 14 => r = FCmp.gt
  | _ => true

/-- Intrinsic `_mm256_cmp_ps`: each lane becomes all ones when the predicate holds of
the two lanes, else all zeros. -/
def _mm256_cmp_ps (a b : M256 F32) (imm8 : Nat) : M256 F32 :=
  M256.zipWith
    (fun x y => if cmpPredicate imm8 (F32.compare x y) then F32.allOnes else F32.allZeros) a b

/-- Operator `fvec8::operator==`. -/
def fvec8.op_eq (self other : fvec8 F32) : fvec8 F32 :=
  ⟨_mm256_cmp_ps self.val other.val _CMP_EQ_OQ⟩

/-- Operator `fvec8::operator!=`. -/
def fvec8.op_ne (self other : fvec8 F32) : fvec8 F32 :=
  ⟨_mm256_cmp_ps self.val other.val _CMP_NEQ_OQ⟩

/-- Operator `fvec8::operator>`. -/
def fvec8.op_gt (self other : fvec8 F32) : fvec8 F32 :=
  ⟨_mm256_cmp_ps self.val other.val _CMP_GT_OQ⟩

/-- Operator `fvec8::operator<`. -/
def fvec8.op_lt (self other : fvec8 F32) : fvec8 F32 :=
  ⟨_mm256_cmp_ps self.val other.val _CMP_LT_OQ⟩

/-- Operator `fvec8::operator>=`. -/
def fvec8.op_ge (self other : fvec8 F32) : fvec8 F32 :=
  ⟨_mm256_cmp_ps self.val other.val _CMP_GE_OQ⟩

/-- Operator `fvec8::operator<=`. -/
def fvec8.op_le (self other : fvec8 F32) : fvec8 F32 :=
  ⟨_mm256_cmp_ps self.val other.val _CMP_LE_OQ⟩

/-- The six comparison operators. -/
inductive CmpOp where
  | eq
  | ne
  | gt
  | lt
  | ge
  | le
deriving DecidableEq

/-- The comparison operator of `fvec8` named by `op`. -/
def fvec8.cmp (op : CmpOp) (v1 v2 : fvec8 F32) : fvec8 F32 :=
  match op with
  | CmpOp.eq => v1.op_eq v2
  | CmpOp.ne => v1.op_ne v2
  | CmpOp.gt => v1.op_gt v2
  | CmpOp.lt => v1.op_lt v2
  | CmpOp.ge => v1.op_ge v2
  | CmpOp.le => v1.op_le v2

/-- The built-in C++ comparison of two `float` scalars named by `op`
(IEEE-754: with a NaN operand `==`, `>`, `<`, `>=`, `<=` are false and `!=`
is true). -/
def scalarCmp (op : CmpOp) (a b : F32) : Bool :=
  match op with
  | CmpOp.eq => a.compare b = FCmp.eq
  | CmpOp.ne => a.compare b ≠ FCmp.eq
  | CmpOp.gt => a.compare b = FCmp.gt
  | CmpOp.lt => a.compare b = FCmp.lt
  | CmpOp.ge => a.compare b = FCmp.gt ∨ a.compare b = FCmp.eq
  | CmpOp.le => a.compare b = FCmp.lt ∨ a.compare b = FCmp.eq


/-! ## Single-precision arithmetic (round to nearest even) -/

namespace F32

/-- Integer significand of a finite value: the fraction, with the implicit
leading bit for a normal number. -/
def sig (x : F32) : Nat := if x.expo = 0 then x.mant else x.mant + 2 ^ 23

/-- Power of two that scales the integer significand of a finite value: the
value is `(-1)^sign * sig * 2^scale`. -/
def scale (x : F32) : Int := if x.expo = 0 then -149 else (x.expo : Int) - 150

/-- Signed integer significand of a finite value. -/
def signedSig (x : F32) : Int := if x.sign then -(x.sig : Int) else (x.sig : Int)

/-- The sign bit in position 31. -/
def signBit (s : Bool) : Nat := if s then 2 ^ 31 else 0

/-- Zero with the sign `s`. -/
def zero (s : Bool) : F32 := ⟨signBit s⟩

/-- Infinity with the sign `s`. -/
def inf (s : Bool) : F32 := ⟨signBit s + 0x7F800000⟩

/-- The "QNaN floating-point indefinite" an invalid SSE operation returns. -/
def indefinite : F32 := ⟨0xFFC00000⟩

/-- A NaN operand with its quiet bit set, as SSE returns it. -/
def quiet (x : F32) : F32 := ⟨x.bits ||| 0x00400000⟩

/-- Index of the leading one bit of `n`, given `fuel ≥` that index. -/
def leadingBitAux : Nat → Nat → Nat
  | 0, _ => 0
  | fuel + 1, n => if n < 2 then 0 else leadingBitAux fuel (n / 2) + 1

/-- Index of the leading one bit of `m` (the floor of its binary logarithm). -/
def leadingBit (m : Nat) : Nat := leadingBitAux m m

/-- The binary32 value nearest to `(-1)^s * m * 2^e` for `m > 0`, ties to even;
overflow gives infinity.  `q` is the exponent of the unit in the last place
of the result, `n` the rounded significand in that unit. -/
def round (s : Bool) (m : Nat) (e : Int) : F32 :=
  let top : Int := e + (leadingBit m : Int)
  let q : Int := max (top - 23) (-149)
  let n : Nat :=
    if q ≤ e then m * 2 ^ (e - q).toNat
    else
      let sh := (q - e).toNat
      let n0 := m / 2 ^ sh
      let r := m % 2 ^ sh
      let half := 2 ^ (sh - 1)
      if r > half ∨ (r = half ∧ n0 % 2 = 1) then n0 + 1 else n0
  let mag := (q + 149).toNat * 2 ^ 23 + n
  if mag ≥ 0x7F800000 then inf s else ⟨signBit s + mag⟩

/-- IEEE-754 binary32 multiplication as done by `MULSS` / `VMULPS`. -/
def mul (a b : F32) : F32 :=
  if a.isNaN then a.quiet
  else if b.isNaN then b.quiet
  else
    let s := a.sign != b.sign
    if a.isInf then (if b.isZero then indefinite else inf s)
    else if b.isInf then (if a.isZero then indefinite else inf s)
    else if a.isZero || b.isZero then zero s
    else round s (a.sig * b.sig) (a.scale + b.scale)

/-- IEEE-754 binary32 addition as done by `ADDSS` / `VADDPS`. -/
def add (a b : F32) : F32 :=
  if a.isNaN then a.quiet
  else if b.isNaN then b.quiet
  else if a.isInf then (if b.isInf && (a.sign != b.sign) then indefinite else a)
  else if b.isInf then b
  else
    let e := min a.scale b.scale
    let t : Int :=
      a.signedSig * 2 ^ (a.scale - e).toNat + b.signedSig * 2 ^ (b.scale - e).toNat
    if t = 0 then zero (a.sign && b.sign)
    else round (decide (t < 0)) t.natAbs e

instance : Add F32 := ⟨add⟩

instance : Mul F32 := ⟨mul⟩

/-- The `float` constant written as the decimal integer `n`, e.g. `120.0f`. -/
def ofNat (n : Nat) : F32 := if n = 0 then zero false else round false n 0

end F32

/-! ## Dot product -/

section Dot
variable {α : Type} [Add α] [Mul α]

/-- Modelled from the spec: the function `dot4` of `vectorize.h`, the "4-lane
dot product" of the narrow vector type that the spec lists as an external
primitive: the sum of the four lanewise products (added pairwise, the order
in which the `DPPS` instruction adds them). -/
def dot4 (v1 v2 : fvec4 α) : α :=
  (v1.val.e0 * v2.val.e0 + v1.val.e1 * v2.val.e1) +
    (v1.val.e2 * v2.val.e2 + v1.val.e3 * v2.val.e3)

/-- Function `dot8(fvec8 v1, fvec8 v2)`. -/
def dot8 (v1 v2 : fvec8 α) : α :=
  dot4 v1.lowerVec v2.lowerVec + dot4 v1.upperVec v2.upperVec

end Dot


/-! ## Subtraction, conversions and values -/

namespace F32

/-- IEEE-754 negation: the same pattern with the sign bit (bit 31) inverted. -/
def flipSign (x : F32) : F32 := ⟨x.bits ^^^ 0x80000000⟩

/-- IEEE-754 binary32 subtraction as done by `SUBSS` / `VSUBPS`: a NaN operand
is returned quieted (the first one if both are NaN), otherwise `a + (-b)`. -/
def sub (a b : F32) : F32 :=
  if a.isNaN then a.quiet
  else if b.isNaN then b.quiet
  else add a b.flipSign

instance : Sub F32 := ⟨sub⟩

/-- IEEE-754 binary32 division as done by `DIVSS` / `VDIVPS`.  The quotient of
the significands is taken with 50 extra bits and a sticky bit for a nonzero
remainder, which is enough for `round` to round the exact quotient. -/
def div (a b : F32) : F32 :=
  if a.isNaN then a.quiet
  else if b.isNaN then b.quiet
  else
    let s := a.sign != b.sign
    if a.isInf then (if b.isInf then indefinite else inf s)
    else if b.isInf then zero s
    else if b.isZero then (if a.isZero then indefinite else inf s)
    else if a.isZero then zero s
    else
      let num := a.sig * 2 ^ 50
      let q := num / b.sig
      let sticky := if num % b.sig = 0 then 0 else 1
      round s (2 * q + sticky) (a.scale - b.scale - 51)

instance : Div F32 := ⟨div⟩

/-- The constant `0.0f`. -/
instance : Zero F32 := ⟨zero false⟩

/-- Magnitude of a finite value with the fractional part dropped. -/
def truncMag (x : F32) : Nat :=
  if 0 ≤ x.scale then x.sig * 2 ^ x.scale.toNat else x.sig / 2 ^ (-x.scale).toNat

/-- One lane of `CVTTPS2DQ`: the value truncated toward zero as a 32-bit
integer pattern; NaN, infinity and values outside the `int` range give the
"integer indefinite" `0x80000000`. -/
def cvtt (x : F32) : Nat :=
  if x.isNaN || x.isInf then 0x80000000
  else
    let t : Int := if x.sign then -(x.truncMag : Int) else (x.truncMag : Int)
    if IsInt32 t then int32Bits t else 0x80000000

/-- The binary32 value nearest to the integer `n`, ties to even. -/
def ofInt (n : Int) : F32 :=
  if n = 0 then zero false else round (decide (n < 0)) n.natAbs 0

/-- One lane of `CVTDQ2PS`: the 32-bit integer held by the pattern `b`,
converted to binary32 under the default rounding mode. -/
def cvtepi32 (b : Nat) : F32 := ofInt (bitsInt32 b)

/-- The rational number a finite binary32 pattern stands for. -/
def toRat (x : F32) : ℚ := (x.signedSig : ℚ) * (2 : ℚ) ^ x.scale

/-- Finite: neither NaN nor infinity. -/
def isFinite (x : F32) : Bool := !(x.isNaN || x.isInf)

end F32

/-- A rational rounded toward zero (its fractional part dropped). -/
def truncQ (q : ℚ) : Int := if 0 ≤ q then ⌊q⌋ else ⌈q⌉

/-! ## Arithmetic, logical and conversion operators -/

section Arith
variable {α : Type}

/-- Intrinsic `_mm256_add_ps`: lanewise sum. -/
def _mm256_add_ps [Add α] (a b : M256 α) : M256 α := M256.zipWith (fun x y => x + y) a b

/-- Intrinsic `_mm256_sub_ps`: lanewise difference `a - b`. -/
def _mm256_sub_ps [Sub α] (a b : M256 α) : M256 α := M256.zipWith (fun x y => x - y) a b

/-- Intrinsic `_mm256_mul_ps`: lanewise product. -/
def _mm256_mul_ps [Mul α] (a b : M256 α) : M256 α := M256.zipWith (fun x y => x * y) a b

/-- Intrinsic `_mm256_div_ps`: lanewise quotient `a / b`. -/
def _mm256_div_ps [Div α] (a b : M256 α) : M256 α := M256.zipWith (fun x y => x / y) a b

/-- Operator `fvec8::operator+`. -/
def fvec8.op_add [Add α] (self other : fvec8 α) : fvec8 α :=
  ⟨_mm256_add_ps self.val other.val⟩

/-- Operator `fvec8::operator-` (binary). -/
def fvec8.op_sub [Sub α] (self other : fvec8 α) : fvec8 α :=
  ⟨_mm256_sub_ps self.val other.val⟩

/-- Operator `fvec8::operator*`. -/
def fvec8.op_mul [Mul α] (self other : fvec8 α) : fvec8 α :=
  ⟨_mm256_mul_ps self.val other.val⟩

/-- Operator `fvec8::operator/`. -/
def fvec8.op_div [Div α] (self other : fvec8 α) : fvec8 α :=
  ⟨_mm256_div_ps self.val other.val⟩

/-- Operator `fvec8::operator-()` (unary): subtracts the vector from a
broadcast `0.0f`. -/
def fvec8.op_neg [Zero α] [Sub α] (self : fvec8 α) : fvec8 α :=
  ⟨_mm256_sub_ps (_mm256_set1_ps 0) self.val⟩

/-- Free function `operator+(float v1, fvec8 v2)`. -/
def scalar_add [Add α] (v1 : α) (v2 : fvec8 α) : fvec8 α := (fvec8.mk1 v1).op_add v2

/-- Free function `operator-(float v1, fvec8 v2)`. -/
def scalar_sub [Sub α] (v1 : α) (v2 : fvec8 α) : fvec8 α := (fvec8.mk1 v1).op_sub v2

/-- Free function `operator*(float v1, fvec8 v2)`. -/
def scalar_mul [Mul α] (v1 : α) (v2 : fvec8 α) : fvec8 α := (fvec8.mk1 v1).op_mul v2

/-- Free function `operator/(float v1, fvec8 v2)`. -/
def scalar_div [Div α] (v1 : α) (v2 : fvec8 α) : fvec8 α := (fvec8.mk1 v1).op_div v2

/-- The expression `v + s` with a `float` on the right: no overload takes
`(fvec8, float)`, so the member `operator+` is called on `s` converted by the
non-explicit constructor `fvec8(float)`. -/
def add_scalar [Add α] (v : fvec8 α) (s : α) : fvec8 α := v.op_add (fvec8.mk1 s)

/-- The expression `v - s` with a `float` on the right (see `add_scalar`). -/
def sub_scalar [Sub α] (v : fvec8 α) (s : α) : fvec8 α := v.op_sub (fvec8.mk1 s)

/-- The expression `v * s` with a `float` on the right (see `add_scalar`). -/
def mul_scalar [Mul α] (v : fvec8 α) (s : α) : fvec8 α := v.op_mul (fvec8.mk1 s)

/-- The expression `v / s` with a `float` on the right (see `add_scalar`). -/
def div_scalar [Div α] (v : fvec8 α) (s : α) : fvec8 α := v.op_div (fvec8.mk1 s)

/-- Intrinsic `_mm256_blendv_ps`: lane `i` is taken from `b` when bit 31 of
lane `i` of `mask` is set, else from `a`. -/
def _mm256_blendv_ps (a b : M256 α) (mask : M256 F32) : M256 α :=
  ⟨if mask.e0.sign then b.e0 else a.e0, if mask.e1.sign then b.e1 else a.e1,
   if mask.e2.sign then b.e2 else a.e2, if mask.e3.sign then b.e3 else a.e3,
   if mask.e4.sign then b.e4 else a.e4, if mask.e5.sign then b.e5 else a.e5,
   if mask.e6.sign then b.e6 else a.e6, if mask.e7.sign then b.e7 else a.e7⟩

end Arith

/-- Intrinsic `_mm256_castsi256_ps`: the same 256 bits, typed as floats. -/
def _mm256_castsi256_ps (a : M256 Nat) : M256 F32 := a.map F32.mk

/-- The implicit conversion from `__m256` to `__m256i` on which the `return`
statements of `ivec8::operator&` and `ivec8::operator|` rely.  Between vector
types of the same size a compiler that accepts it reinterprets the bits
(a lax vector conversion); `ivec8` has no constructor taking `__m256`. -/
def m256_as_m256i (a : M256 F32) : M256 Nat := a.map F32.bits

/-- Intrinsic `_mm256_and_ps`: bitwise AND of the 256 bits. -/
def _mm256_and_ps (a b : M256 F32) : M256 F32 :=
  M256.zipWith (fun x y => ⟨x.bits &&& y.bits⟩) a b

/-- Intrinsic `_mm256_or_ps`: bitwise OR of the 256 bits. -/
def _mm256_or_ps (a b : M256 F32) : M256 F32 :=
  M256.zipWith (fun x y => ⟨x.bits ||| y.bits⟩) a b

/-- Intrinsic `_mm256_cvttps_epi32`: lanewise truncating conversion to `int`. -/
def _mm256_cvttps_epi32 (a : M256 F32) : M256 Nat := a.map F32.cvtt

/-- Intrinsic `_mm256_cvtepi32_ps`: lanewise conversion of `int` to `float`. -/
def _mm256_cvtepi32_ps (a : M256 Nat) : M256 F32 := a.map F32.cvtepi32

/-- Operator `fvec8::operator&`. -/
def fvec8.op_and (self other : fvec8 F32) : fvec8 F32 :=
  ⟨_mm256_and_ps self.val other.val⟩

/-- Operator `fvec8::operator|`. -/
def fvec8.op_or (self other : fvec8 F32) : fvec8 F32 :=
  ⟨_mm256_or_ps self.val other.val⟩

/-- Operator `ivec8::operator&`. -/
def ivec8.op_and (self other : ivec8) : ivec8 :=
  ⟨m256_as_m256i
    (_mm256_and_ps (_mm256_castsi256_ps self.val) (_mm256_castsi256_ps other.val))⟩

/-- Operator `ivec8::operator|`. -/
def ivec8.op_or (self other : ivec8) : ivec8 :=
  ⟨m256_as_m256i
    (_mm256_or_ps (_mm256_castsi256_ps self.val) (_mm256_castsi256_ps other.val))⟩

/-- Conversion `fvec8::operator ivec8()`. -/
def fvec8.toIvec8 (self : fvec8 F32) : ivec8 := ⟨_mm256_cvttps_epi32 self.val⟩

/-- Conversion `ivec8::operator fvec8()`. -/
def ivec8.toFvec8 (self : ivec8) : fvec8 F32 := ⟨_mm256_cvtepi32_ps self.val⟩

/-- Function `abs(fvec8 v)`. -/
def abs (v : fvec8 F32) : fvec8 F32 :=
  ⟨_mm256_and_ps v.val (_mm256_castsi256_ps (_mm256_set1_epi32 0x7FFFFFFF))⟩

/-- Function `blend(fvec8 v1, fvec8 v2, ivec8 mask)`. -/
def blend {α : Type} (v1 v2 : fvec8 α) (mask : ivec8) : fvec8 α :=
  ⟨_mm256_blendv_ps v1.val v2.val (_mm256_castsi256_ps mask.val)⟩


/-! ## Sample vectors -/

/-- The vector `fvec8(1, 2, 3, 4, 5, 6, 7, 8)` of the spec scenario. -/
def sampleV1 : fvec8 F32 :=
  fvec8.mk8 (F32.ofNat 1) (F32.ofNat 2) (F32.ofNat 3) (F32.ofNat 4)
    (F32.ofNat 5) (F32.ofNat 6) (F32.ofNat 7) (F32.ofNat 8)

/-- The vector `fvec8(8, 7, 6, 5, 4, 3, 2, 1)` of the spec scenario. -/
def sampleV2 : fvec8 F32 :=
  fvec8.mk8 (F32.ofNat 8) (F32.ofNat 7) (F32.ofNat 6) (F32.ofNat 5)
    (F32.ofNat 4) (F32.ofNat 3) (F32.ofNat 2) (F32.ofNat 1)

/-- A quiet NaN. -/
def F32.qnan : F32 := ⟨0x7FC00000⟩

/-! ## Theorems -/

/-- C1: packing eight 4-lane records with `transpose8x4` and unpacking the four
results with `transpose4x8` returns the eight records unchanged, in order,
whatever the undefined upper halves of the intermediate casts were. -/
theorem transpose_unpack_pack {α : Type} (r0 r1 r2 r3 r4 r5 r6 r7 : fvec4 α)
    (u1 u2 u3 u4 : M128 α) :
    transpose4x8 (transpose8x4 r0 r1 r2 r3 r4 r5 r6 r7 u1 u2 u3 u4).1
        (transpose8x4 r0 r1 r2 r3 r4 r5 r6 r7 u1 u2 u3 u4).2.1
        (transpose8x4 r0 r1 r2 r3 r4 r5 r6 r7 u1 u2 u3 u4).2.2.1
        (transpose8x4 r0 r1 r2 r3 r4 r5 r6 r7 u1 u2 u3 u4).2.2.2
      = (r0, r1, r2, r3, r4, r5, r6, r7) := by
  rfl

/-- C2: unpacking four 8-lane vectors with `transpose4x8` and packing the eight
results with `transpose8x4` returns the four vectors unchanged. -/
theorem transpose_pack_unpack {α : Type} (w0 w1 w2 w3 : fvec8 α) (u1 u2 u3 u4 : M128 α) :
    transpose8x4 (transpose4x8 w0 w1 w2 w3).1
        (transpose4x8 w0 w1 w2 w3).2.1
        (transpose4x8 w0 w1 w2 w3).2.2.1
        (transpose4x8 w0 w1 w2 w3).2.2.2.1
        (transpose4x8 w0 w1 w2 w3).2.2.2.2.1
        (transpose4x8 w0 w1 w2 w3).2.2.2.2.2.1
        (transpose4x8 w0 w1 w2 w3).2.2.2.2.2.2.1
        (transpose4x8 w0 w1 w2 w3).2.2.2.2.2.2.2 u1 u2 u3 u4
      = (w0, w1, w2, w3) := by
  rfl

/-- C3: pack layout. Lane `j` of output `i` of `transpose8x4` is field `i` of
input record `j`, for all fields `i < 4` and records `j < 8`; records 0-3 fill
the lower half and records 4-7 the upper half, in record order. -/
theorem transpose8x4_layout {α : Type} (in1 in2 in3 in4 in5 in6 in7 in8 : fvec4 α)
    (u1 u2 u3 u4 : M128 α) (i : Fin 4) :
    (∀ j : Fin 8,
      (packOut (transpose8x4 in1 in2 in3 in4 in5 in6 in7 in8 u1 u2 u3 u4) i).lane j
        = (nth8 in1 in2 in3 in4 in5 in6 in7 in8 j).lane i) ∧
    (∀ k : Fin 4,
      (packOut (transpose8x4 in1 in2 in3 in4 in5 in6 in7 in8 u1 u2 u3 u4) i).lowerVec.lane k
        = (nth4 in1 in2 in3 in4 k).lane i ∧
      (packOut (transpose8x4 in1 in2 in3 in4 in5 in6 in7 in8 u1 u2 u3 u4) i).upperVec.lane k
        = (nth4 in5 in6 in7 in8 k).lane i) := by
  constructor
  · intro j
    fin_cases i <;> fin_cases j <;> rfl
  · intro k
    fin_cases i <;> fin_cases k <;> exact ⟨rfl, rfl⟩

/-- C4: unpack layout. Lane `i` of output `j` of `transpose4x8` is lane `j` of
input field vector `i`, for all records `j < 8` and fields `i < 4`. -/
theorem transpose4x8_layout {α : Type} (in1 in2 in3 in4 : fvec8 α)
    (i : Fin 4) (j : Fin 8) :
    (unpackOut (transpose4x8 in1 in2 in3 in4) j).lane i
      = (nth4 in1 in2 in3 in4 i).lane j := by
  fin_cases i <;> fin_cases j <;> rfl


/-! ### Helper lemmas -/

theorem bitsInt32_int32Bits (v : Int) (h : IsInt32 v) : bitsInt32 (int32Bits v) = v := by
  unfold IsInt32 at h
  unfold bitsInt32 int32Bits
  split_ifs with h1 <;> omega

theorem int32Bits_lt (v : Int) : int32Bits v < 2 ^ 32 := by
  unfold int32Bits
  omega

theorem and_allOnes32 (x : Nat) : x &&& int32Bits 0xFFFFFFFF = x % 2 ^ 32 := by
  have h : int32Bits 0xFFFFFFFF = 2 ^ 32 - 1 := by decide
  rw [h, Nat.and_pow_two_sub_one_eq_mod]

theorem storeu_at {α : Type} (mem : Mem α) (p : Nat) (a : M256 α) (i : Fin 8) :
    _mm256_storeu_ps mem p a (p + i) = a.lane i := by
  fin_cases i <;> simp [_mm256_storeu_ps, M256.lane]

/-- C5: store/load round trip of `fvec8`. Storing a vector loaded from a buffer
to the same place leaves memory unchanged; storing it anywhere writes the
eight loaded values in the same positions; and loading from the place a
vector was stored to gives back that vector, lane for lane. -/
theorem fvec8_store_load_roundtrip {α : Type} :
    (∀ (mem : Mem α) (p : Nat), (fvec8.load mem p).store mem p = mem) ∧
    (∀ (src dst : Mem α) (p q : Nat) (i : Fin 8),
      (fvec8.load src p).store dst q (q + i) = src (p + i)) ∧
    (∀ (v : fvec8 α) (mem : Mem α) (p : Nat), fvec8.load (v.store mem p) p = v) := by
  refine ⟨?_, ?_, ?_⟩
  · intro mem p
    funext q
    simp only [fvec8.store, fvec8.load, _mm256_storeu_ps, _mm256_loadu_ps]
    split_ifs <;> simp_all
  · intro src dst p q i
    simp only [fvec8.store, storeu_at]
    fin_cases i <;> rfl
  · intro v mem p
    obtain ⟨⟨a0, a1, a2, a3, a4, a5, a6, a7⟩⟩ := v
    simp [fvec8.store, fvec8.load, _mm256_storeu_ps, _mm256_loadu_ps]

/-- C6: constructor lane order. The eight-argument constructors of `fvec8` and
`ivec8` put argument `i` in lane `i`, so that `store` writes `v1` at index 0,
..., `v8` at index 7 (for `ivec8`, the `int` arguments being 32-bit values);
the one-argument constructors put the scalar in all eight lanes. -/
theorem constructor_lane_order :
    (∀ (α : Type) (v1 v2 v3 v4 v5 v6 v7 v8 : α) (i : Fin 8),
      (fvec8.mk8 v1 v2 v3 v4 v5 v6 v7 v8).lane i = nth8 v1 v2 v3 v4 v5 v6 v7 v8 i ∧
      ∀ (mem : Mem α) (p : Nat),
        (fvec8.mk8 v1 v2 v3 v4 v5 v6 v7 v8).store mem p (p + i)
          = nth8 v1 v2 v3 v4 v5 v6 v7 v8 i) ∧
    (∀ (v1 v2 v3 v4 v5 v6 v7 v8 : Int) (i : Fin 8),
      (ivec8.mk8 v1 v2 v3 v4 v5 v6 v7 v8).lane i
          = int32Bits (nth8 v1 v2 v3 v4 v5 v6 v7 v8 i) ∧
      (IsInt32 (nth8 v1 v2 v3 v4 v5 v6 v7 v8 i) →
        ∀ (mem : Mem Int) (p : Nat),
          (ivec8.mk8 v1 v2 v3 v4 v5 v6 v7 v8).store mem p (p + i)
            = nth8 v1 v2 v3 v4 v5 v6 v7 v8 i)) ∧
    (∀ (α : Type) (s : α) (i : Fin 8), (fvec8.mk1 s).lane i = s) ∧
    (∀ (s : Int) (i : Fin 8), (ivec8.mk1 s).lane i = int32Bits s) := by
  refine ⟨?_, ?_, ?_, ?_⟩
  · intro α v1 v2 v3 v4 v5 v6 v7 v8 i
    refine ⟨by fin_cases i <;> rfl, fun mem p => ?_⟩
    simp only [fvec8.store, storeu_at]
    fin_cases i <;> rfl
  · intro v1 v2 v3 v4 v5 v6 v7 v8 i
    refine ⟨by fin_cases i <;> rfl, fun h mem p => ?_⟩
    simp only [ivec8.store, _mm256_storeu_si256, storeu_at]
    have key : ((ivec8.mk8 v1 v2 v3 v4 v5 v6 v7 v8).val.map bitsInt32).lane i
        = bitsInt32 (int32Bits (nth8 v1 v2 v3 v4 v5 v6 v7 v8 i)) := by
      fin_cases i <;> rfl
    rw [key, bitsInt32_int32Bits _ h]
  · intro α s i
    fin_cases i <;> rfl
  · intro s i
    fin_cases i <;> rfl

/-- Witness for C6 at `ivec8(1, -2, 3, -4, 5, -6, 7, -8)`, index 1. -/
theorem constructor_lane_order_witness :
    IsInt32 (nth8 1 (-2) 3 (-4) 5 (-6) 7 (-8) (1 : Fin 8)) ∧
    (ivec8.mk8 1 (-2) 3 (-4) 5 (-6) 7 (-8)).store (fun _ => 0) 10 (10 + ((1 : Fin 8) : Nat))
      = -2 :=
  ⟨by decide,
   (constructor_lane_order.2.1 1 (-2) 3 (-4) 5 (-6) 7 (-8) 1).2 (by decide) (fun _ => 0) 10⟩


/-- C10: `any(v)` is true exactly when one of the 256 bits of `v` (bit `k < 32`
of some lane) is set; and, the lanes being 32-bit patterns, `any(v)` is false
exactly when every one of the eight lanes is zero. -/
theorem any_iff (v : ivec8) :
    (any v = true ↔ ∃ (i : Fin 8) (k : Nat), k < 32 ∧ (v.lane i).testBit k = true) ∧
    (v.WF → (any v = false ↔ ∀ i : Fin 8, v.lane i = 0)) := by
  have hmod : any v = false ↔ ∀ i : Fin 8, v.lane i % 2 ^ 32 = 0 := by
    obtain ⟨⟨a0, a1, a2, a3, a4, a5, a6, a7⟩⟩ := v
    simp only [any, _mm256_testz_si256, _mm256_set1_epi32, _mm256_set1_ps, and_allOnes32,
      ivec8.lane]
    constructor
    · intro h i
      split_ifs at h with hc
      · obtain ⟨h0, h1, h2, h3, h4, h5, h6, h7⟩ := hc
        fin_cases i <;> assumption
      · simp at h
    · intro h
      have hc := And.intro (h 0) (And.intro (h 1) (And.intro (h 2) (And.intro (h 3)
        (And.intro (h 4) (And.intro (h 5) (And.intro (h 6) (h 7)))))))
      simp only [M256.lane] at hc
      rw [if_pos hc]
      rfl
  constructor
  · rw [← Bool.not_eq_false, hmod]
    push_neg
    constructor
    · rintro ⟨i, hi⟩
      obtain ⟨k, hk⟩ := Nat.ne_zero_implies_bit_true hi
      rw [Nat.testBit_mod_two_pow] at hk
      simp only [Bool.and_eq_true, decide_eq_true_eq] at hk
      exact ⟨i, k, hk.1, hk.2⟩
    · rintro ⟨i, k, hk, hb⟩
      refine ⟨i, fun h0 => ?_⟩
      have : (v.lane i % 2 ^ 32).testBit k = true := by
        rw [Nat.testBit_mod_two_pow]
        simp [hk, hb]
      rw [h0] at this
      simp at this
  · intro hwf
    rw [hmod]
    constructor
    · intro h i
      have := h i
      rwa [Nat.mod_eq_of_lt (hwf i)] at this
    · intro h i
      rw [h i, Nat.zero_mod]

/-- Witness for C10 at the vector `ivec8(0, 0, 4, 0, 0, 0, 0, 0)`. -/
theorem any_iff_witness :
    (ivec8.mk8 0 0 4 0 0 0 0 0).WF ∧
    (any (ivec8.mk8 0 0 4 0 0 0 0 0) = false ↔
      ∀ i : Fin 8, (ivec8.mk8 0 0 4 0 0 0 0 0).lane i = 0) :=
  ⟨by decide, (any_iff (ivec8.mk8 0 0 4 0 0 0 0 0)).2 (by decide)⟩


/-! ### Comparisons -/

theorem compare_un_iff (a b : F32) :
    (a.isNaN = true ∨ b.isNaN = true) ↔ F32.compare a b = FCmp.un := by
  unfold F32.compare
  cases ha : a.isNaN <;> cases hb : b.isNaN <;> simp
  split_ifs <;> simp

theorem cmp_lane (op : CmpOp) (v1 v2 : fvec8 F32) (i : Fin 8) :
    (fvec8.cmp op v1 v2).lane i =
      if scalarCmp op (v1.lane i) (v2.lane i) = true ∧
          ¬ (op = CmpOp.ne ∧ ((v1.lane i).isNaN = true ∨ (v2.lane i).isNaN = true))
      then F32.allOnes else F32.allZeros := by
  obtain ⟨⟨a0, a1, a2, a3, a4, a5, a6, a7⟩⟩ := v1
  obtain ⟨⟨b0, b1, b2, b3, b4, b5, b6, b7⟩⟩ := v2
  have key : ∀ a b : F32,
      (if cmpPredicate
          (match op with
            | CmpOp.eq => _CMP_EQ_OQ | CmpOp.ne => _CMP_NEQ_OQ | CmpOp.gt => _CMP_GT_OQ
            | CmpOp.lt => _CMP_LT_OQ | CmpOp.ge => _CMP_GE_OQ | CmpOp.le => _CMP_LE_OQ)
          (F32.compare a b) = true then F32.allOnes else F32.allZeros) =
      if scalarCmp op a b = true ∧ ¬ (op = CmpOp.ne ∧ (a.isNaN = true ∨ b.isNaN = true))
      then F32.allOnes else F32.allZeros := by
    intro a b
    have hun := compare_un_iff a b
    cases op <;> simp only [hun, scalarCmp] <;> generalize F32.compare a b = r <;>
      cases r <;>
      simp [cmpPredicate, _CMP_EQ_OQ, _CMP_NEQ_OQ, _CMP_GT_OQ, _CMP_LT_OQ,
        _CMP_GE_OQ, _CMP_LE_OQ]
  fin_cases i <;> cases op <;> exact key _ _

theorem allOnes_ne_allZeros : F32.allOnes ≠ F32.allZeros := by decide

theorem scalarCmp_nan (op : CmpOp) (a b : F32) (h : a.isNaN = true ∨ b.isNaN = true) :
    scalarCmp op a b = decide (op = CmpOp.ne) := by
  have hun := (compare_un_iff a b).1 h
  cases op <;> simp [scalarCmp, hun]

/-- C7 (amended): every lane of each of the six comparisons is the all-ones or
the all-zeros pattern and depends on lane `i` of the operands only. It is
all-ones exactly when the scalar comparison of the two lanes is true and,
for `!=`, neither lane is NaN; so for `==`, `>`, `<`, `>=`, `<=` it is
all-ones exactly when the scalar comparison is true. -/
theorem cmp_mask_law (op : CmpOp) (v1 v2 : fvec8 F32) (i : Fin 8) :
    ((fvec8.cmp op v1 v2).lane i = F32.allOnes ∨
      (fvec8.cmp op v1 v2).lane i = F32.allZeros) ∧
    ((fvec8.cmp op v1 v2).lane i = F32.allOnes ↔
      (scalarCmp op (v1.lane i) (v2.lane i) = true ∧
        ¬ (op = CmpOp.ne ∧ ((v1.lane i).isNaN = true ∨ (v2.lane i).isNaN = true)))) ∧
    (op = CmpOp.ne ∨
      ((fvec8.cmp op v1 v2).lane i = F32.allOnes ↔
        scalarCmp op (v1.lane i) (v2.lane i) = true)) ∧
    (fvec8.cmp op v1 v2).lane i
      = (fvec8.cmp op (fvec8.mk1 (v1.lane i)) (fvec8.mk1 (v2.lane i))).lane i := by
  have hb : ∀ (x : F32), (fvec8.mk1 x).lane i = x := by
    intro x
    fin_cases i <;> rfl
  have h2 : ((fvec8.cmp op v1 v2).lane i = F32.allOnes ↔
      (scalarCmp op (v1.lane i) (v2.lane i) = true ∧
        ¬ (op = CmpOp.ne ∧ ((v1.lane i).isNaN = true ∨ (v2.lane i).isNaN = true)))) := by
    rw [cmp_lane]
    split_ifs with h
    · simp [h]
    · simp only [h, iff_false]
      exact fun hc => allOnes_ne_allZeros hc.symm
  refine ⟨?_, h2, ?_, ?_⟩
  · rw [cmp_lane]
    split_ifs
    · exact Or.inl rfl
    · exact Or.inr rfl
  · by_cases hne : op = CmpOp.ne
    · exact Or.inl hne
    · refine Or.inr ?_
      rw [h2]
      simp [hne]
  · rw [cmp_lane, cmp_lane op (fvec8.mk1 _), hb, hb]

/-- C7 (as stated) fails for `!=` on a NaN lane: with `v1` all NaN and `v2` all
`1.0f`, the scalar `NaN != 1.0f` is true but lane 0 of `v1 != v2` is not all
ones. -/
theorem cmp_mask_law_ne_nan_counterexample :
    ¬ ((fvec8.cmp CmpOp.ne (fvec8.mk1 ⟨0x7FC00000⟩) (fvec8.mk1 ⟨0x3F800000⟩)).lane 0
          = F32.allOnes ↔
        scalarCmp CmpOp.ne ((fvec8.mk1 (⟨0x7FC00000⟩ : F32)).lane 0)
          ((fvec8.mk1 (⟨0x3F800000⟩ : F32)).lane 0) = true) := by
  decide

/-- C8 (amended): in every lane in which at least one operand is NaN, all six
comparison operators, `!=` included, yield the all-zeros pattern. -/
theorem cmp_nan_lane (v1 v2 : fvec8 F32) (i : Fin 8)
    (h : (v1.lane i).isNaN = true ∨ (v2.lane i).isNaN = true) :
    (v1.op_gt v2).lane i = F32.allZeros ∧ (v1.op_lt v2).lane i = F32.allZeros ∧
    (v1.op_ge v2).lane i = F32.allZeros ∧ (v1.op_le v2).lane i = F32.allZeros ∧
    (v1.op_eq v2).lane i = F32.allZeros ∧ (v1.op_ne v2).lane i = F32.allZeros := by
  have key : ∀ op, (fvec8.cmp op v1 v2).lane i = F32.allZeros := by
    intro op
    rw [cmp_lane, scalarCmp_nan op _ _ h]
    cases op <;> simp [h]
  exact ⟨key CmpOp.gt, key CmpOp.lt, key CmpOp.ge, key CmpOp.le, key CmpOp.eq, key CmpOp.ne⟩

/-- Witness for C8 (amended): lane 3 of `(1, 2, 3, NaN, 5, 6, 7, 8)` against all `1.0f`. -/
theorem cmp_nan_lane_witness :
    (((fvec8.mk8 ⟨0x3F800000⟩ ⟨0x40000000⟩ ⟨0x40400000⟩ ⟨0x7FC00000⟩ ⟨0x40A00000⟩
          ⟨0x40C00000⟩ ⟨0x40E00000⟩ ⟨0x41000000⟩ : fvec8 F32).lane 3).isNaN = true ∨
      ((fvec8.mk1 (⟨0x3F800000⟩ : F32)).lane 3).isNaN = true) ∧
    ((fvec8.mk8 ⟨0x3F800000⟩ ⟨0x40000000⟩ ⟨0x40400000⟩ ⟨0x7FC00000⟩ ⟨0x40A00000⟩
        ⟨0x40C00000⟩ ⟨0x40E00000⟩ ⟨0x41000000⟩ : fvec8 F32).op_ne
      (fvec8.mk1 ⟨0x3F800000⟩)).lane 3 = F32.allZeros :=
  ⟨by decide,
   (cmp_nan_lane (fvec8.mk8 ⟨0x3F800000⟩ ⟨0x40000000⟩ ⟨0x40400000⟩ ⟨0x7FC00000⟩ ⟨0x40A00000⟩
        ⟨0x40C00000⟩ ⟨0x40E00000⟩ ⟨0x41000000⟩) (fvec8.mk1 ⟨0x3F800000⟩) 3
      (by decide)).2.2.2.2.2⟩

/-- C8 (as stated) fails for `!=`: lane 5 of `2.0f != (.., NaN at lane 5, ..)`
has a NaN operand and is not the all-ones pattern. -/
theorem cmp_nan_ne_counterexample :
    ((fvec8.mk8 ⟨0⟩ ⟨0⟩ ⟨0⟩ ⟨0⟩ ⟨0⟩ ⟨0xFFC00001⟩ ⟨0⟩ ⟨0⟩ : fvec8 F32).lane 5).isNaN = true ∧
    ((fvec8.mk1 (⟨0x40000000⟩ : F32)).op_ne
        (fvec8.mk8 ⟨0⟩ ⟨0⟩ ⟨0⟩ ⟨0⟩ ⟨0⟩ ⟨0xFFC00001⟩ ⟨0⟩ ⟨0⟩)).lane 5 ≠ F32.allOnes := by
  decide


/-! ### Dot product -/

/-- C9: `dot8(v1, v2)` is the 4-lane dot product of the lower halves plus that
of the upper halves; over exact arithmetic (any semiring) it equals the sum
over the eight lanes of `v1[i] * v2[i]`; and for `v1 = (1, ..., 8)`,
`v2 = (8, ..., 1)` the result is 120, over the integers and over binary32
floats with IEEE rounding (`120.0f` being the pattern `0x42F00000`). -/
theorem dot8_sum :
    (∀ (α : Type) [NonUnitalNonAssocSemiring α] (v1 v2 : fvec8 α),
      dot8 v1 v2 = ∑ i : Fin 8, v1.lane i * v2.lane i) ∧
    (∀ (α : Type) [Add α] [Mul α] (v1 v2 : fvec8 α),
      dot8 v1 v2 = dot4 v1.lowerVec v2.lowerVec + dot4 v1.upperVec v2.upperVec) ∧
    dot8 (fvec8.mk8 (1 : Int) 2 3 4 5 6 7 8) (fvec8.mk8 8 7 6 5 4 3 2 1) = 120 ∧
    dot8 (fvec8.mk8 (F32.ofNat 1) (F32.ofNat 2) (F32.ofNat 3) (F32.ofNat 4)
          (F32.ofNat 5) (F32.ofNat 6) (F32.ofNat 7) (F32.ofNat 8))
        (fvec8.mk8 (F32.ofNat 8) (F32.ofNat 7) (F32.ofNat 6) (F32.ofNat 5)
          (F32.ofNat 4) (F32.ofNat 3) (F32.ofNat 2) (F32.ofNat 1))
      = F32.ofNat 120 ∧
    F32.ofNat 120 = ⟨0x42F00000⟩ := by
  refine ⟨?_, fun _ _ _ _ _ => rfl, by decide, by decide, by decide⟩
  intro α _ v1 v2
  obtain ⟨⟨a0, a1, a2, a3, a4, a5, a6, a7⟩⟩ := v1
  obtain ⟨⟨b0, b1, b2, b3, b4, b5, b6, b7⟩⟩ := v2
  rw [Fin.sum_univ_eight]
  show (a0 * b0 + a1 * b1 + (a2 * b2 + a3 * b3)) + (a4 * b4 + a5 * b5 + (a6 * b6 + a7 * b7))
    = a0 * b0 + a1 * b1 + a2 * b2 + a3 * b3 + a4 * b4 + a5 * b5 + a6 * b6 + a7 * b7
  simp only [add_assoc]


/-! ### Blend, logical operators and scalar arithmetic -/

theorem sign_eq_testBit (b : Nat) : (F32.mk b).sign = b.testBit 31 := by
  simp only [F32.sign, Nat.testBit_to_div_mod]

theorem blend_lane {α : Type} (a b : fvec8 α) (m : ivec8) (i : Fin 8) :
    (blend a b m).lane i = if (m.lane i).testBit 31 = true then b.lane i else a.lane i := by
  obtain ⟨⟨a0, a1, a2, a3, a4, a5, a6, a7⟩⟩ := a
  obtain ⟨⟨b0, b1, b2, b3, b4, b5, b6, b7⟩⟩ := b
  obtain ⟨⟨m0, m1, m2, m3, m4, m5, m6, m7⟩⟩ := m
  fin_cases i <;>
    simp [blend, _mm256_blendv_ps, _mm256_castsi256_ps, M256.map, fvec8.lane, ivec8.lane,
      M256.lane, sign_eq_testBit]

theorem fvec8_ext_lane {α : Type} (v w : fvec8 α) (h : ∀ i : Fin 8, v.lane i = w.lane i) :
    v = w := by
  obtain ⟨⟨a0, a1, a2, a3, a4, a5, a6, a7⟩⟩ := v
  obtain ⟨⟨b0, b1, b2, b3, b4, b5, b6, b7⟩⟩ := w
  have h0 := h 0
  have h1 := h 1
  have h2 := h 2
  have h3 := h 3
  have h4 := h 4
  have h5 := h 5
  have h6 := h 6
  have h7 := h 7
  simp only [fvec8.lane, M256.lane] at h0 h1 h2 h3 h4 h5 h6 h7
  subst h0 h1 h2 h3 h4 h5 h6 h7
  rfl

theorem any_false_iff_mod (v : ivec8) :
    any v = false ↔ ∀ i : Fin 8, v.lane i % 2 ^ 32 = 0 := by
  obtain ⟨⟨a0, a1, a2, a3, a4, a5, a6, a7⟩⟩ := v
  simp only [any, _mm256_testz_si256, _mm256_set1_epi32, _mm256_set1_ps, and_allOnes32,
    ivec8.lane]
  constructor
  · intro h i
    split_ifs at h with hc
    · obtain ⟨h0, h1, h2, h3, h4, h5, h6, h7⟩ := hc
      fin_cases i <;> assumption
    · simp at h
  · intro h
    have hc := And.intro (h 0) (And.intro (h 1) (And.intro (h 2) (And.intro (h 3)
      (And.intro (h 4) (And.intro (h 5) (And.intro (h 6) (h 7)))))))
    simp only [M256.lane] at hc
    rw [if_pos hc]
    rfl

theorem any_true_iff_mod (v : ivec8) :
    any v = true ↔ ∃ i : Fin 8, v.lane i % 2 ^ 32 ≠ 0 := by
  rw [← Bool.not_eq_false, any_false_iff_mod]
  push_neg
  rfl

/-- C11: `blend(a, b, m)` is `a` when every lane of `m` is all zeros and `b` when
every lane of `m` is all ones; for any mask, lane `i` of the result is `b[i]`
when `m[i]` is all ones and `a[i]` when `m[i]` is all zeros, and it depends on
lane `i` of `a`, `b` and `m` only. -/
theorem blend_mask_law {α : Type} (a b : fvec8 α) (m : ivec8) :
    ((∀ i : Fin 8, m.lane i = 0) → blend a b m = a) ∧
    ((∀ i : Fin 8, m.lane i = 0xFFFFFFFF) → blend a b m = b) ∧
    (∀ i : Fin 8,
      (m.lane i = 0xFFFFFFFF → (blend a b m).lane i = b.lane i) ∧
      (m.lane i = 0 → (blend a b m).lane i = a.lane i) ∧
      (∀ (a2 b2 : fvec8 α) (m2 : ivec8),
        a2.lane i = a.lane i → b2.lane i = b.lane i → m2.lane i = m.lane i →
          (blend a2 b2 m2).lane i = (blend a b m).lane i)) := by
  have hz : ∀ i : Fin 8, m.lane i = 0 → (blend a b m).lane i = a.lane i := by
    intro i h
    rw [blend_lane, h]
    simp
  have ho : ∀ i : Fin 8, m.lane i = 0xFFFFFFFF → (blend a b m).lane i = b.lane i := by
    intro i h
    rw [blend_lane, h]
    have : Nat.testBit 0xFFFFFFFF 31 = true := by decide
    simp [this]
  refine ⟨fun h => fvec8_ext_lane _ _ (fun i => hz i (h i)),
    fun h => fvec8_ext_lane _ _ (fun i => ho i (h i)), fun i => ⟨ho i, hz i, ?_⟩⟩
  intro a2 b2 m2 ha hb hm
  rw [blend_lane, blend_lane, ha, hb, hm]

/-- Witness for C11: the all-zeros mask, the all-ones mask, and a mixed mask
at lanes 1 (all ones) and 2 (all zeros). -/
theorem blend_mask_law_witness :
    ((∀ i : Fin 8, (ivec8.mk1 0).lane i = 0) ∧
      blend sampleV1 sampleV2 (ivec8.mk1 0) = sampleV1) ∧
    ((∀ i : Fin 8, (ivec8.mk1 (-1)).lane i = 0xFFFFFFFF) ∧
      blend sampleV1 sampleV2 (ivec8.mk1 (-1)) = sampleV2) ∧
    ((ivec8.mk8 0 (-1) 0 (-1) 0 0 0 0).lane 1 = 0xFFFFFFFF ∧
      (blend sampleV1 sampleV2 (ivec8.mk8 0 (-1) 0 (-1) 0 0 0 0)).lane 1
        = sampleV2.lane 1) ∧
    ((ivec8.mk8 0 (-1) 0 (-1) 0 0 0 0).lane 2 = 0 ∧
      (blend sampleV1 sampleV2 (ivec8.mk8 0 (-1) 0 (-1) 0 0 0 0)).lane 2
        = sampleV1.lane 2) ∧
    ((fvec8.mk1 (F32.ofNat 4)).lane 3 = sampleV1.lane 3 ∧
      (fvec8.mk1 (F32.ofNat 5)).lane 3 = sampleV2.lane 3 ∧
      (ivec8.mk1 (-1)).lane 3 = (ivec8.mk8 0 (-1) 0 (-1) 0 0 0 0).lane 3 ∧
      (blend (fvec8.mk1 (F32.ofNat 4)) (fvec8.mk1 (F32.ofNat 5)) (ivec8.mk1 (-1))).lane 3
        = (blend sampleV1 sampleV2 (ivec8.mk8 0 (-1) 0 (-1) 0 0 0 0)).lane 3) :=
  ⟨⟨by decide, (blend_mask_law sampleV1 sampleV2 (ivec8.mk1 0)).1 (by decide)⟩,
   ⟨by decide, (blend_mask_law sampleV1 sampleV2 (ivec8.mk1 (-1))).2.1 (by decide)⟩,
   ⟨by decide,
    ((blend_mask_law sampleV1 sampleV2 (ivec8.mk8 0 (-1) 0 (-1) 0 0 0 0)).2.2 1).1
      (by decide)⟩,
   ⟨by decide,
    ((blend_mask_law sampleV1 sampleV2 (ivec8.mk8 0 (-1) 0 (-1) 0 0 0 0)).2.2 2).2.1
      (by decide)⟩,
   ⟨by decide, by decide, by decide,
    ((blend_mask_law sampleV1 sampleV2 (ivec8.mk8 0 (-1) 0 (-1) 0 0 0 0)).2.2 3).2.2
      (fvec8.mk1 (F32.ofNat 4)) (fvec8.mk1 (F32.ofNat 5)) (ivec8.mk1 (-1))
      (by decide) (by decide) (by decide)⟩⟩

/-- C20: `blend` decides lane `i` by bit 31 of the mask lane alone: the result
lane is `b[i]` when that bit is set and `a[i]` otherwise, for every mask. For
a 32-bit mask lane the bit is set exactly when the lane is negative as an
`int`; a mask lane that is nonzero but non-negative selects `a[i]` although
`any(m)` is true. -/
theorem blend_sign_bit {α : Type} (a b : fvec8 α) (m : ivec8) (i : Fin 8) :
    ((blend a b m).lane i
      = if (m.lane i).testBit 31 = true then b.lane i else a.lane i) ∧
    (m.lane i < 2 ^ 32 → ((m.lane i).testBit 31 = true ↔ bitsInt32 (m.lane i) < 0)) ∧
    (m.lane i < 2 ^ 32 → 0 < bitsInt32 (m.lane i) →
      any m = true ∧ (blend a b m).lane i = a.lane i) := by
  have hbit : m.lane i < 2 ^ 32 → ((m.lane i).testBit 31 = true ↔ 2 ^ 31 ≤ m.lane i) := by
    intro h
    rw [Nat.testBit_to_div_mod]
    simp only [decide_eq_true_eq]
    omega
  refine ⟨blend_lane a b m i, ?_, ?_⟩
  · intro h
    rw [hbit h]
    unfold bitsInt32
    split_ifs <;> omega
  · intro h hpos
    have hlt : m.lane i < 2 ^ 31 := by
      unfold bitsInt32 at hpos
      split_ifs at hpos <;> omega
    have hne : m.lane i ≠ 0 := by
      intro h0
      rw [h0] at hpos
      simp [bitsInt32] at hpos
    constructor
    · rw [any_true_iff_mod]
      exact ⟨i, by omega⟩
    · rw [blend_lane]
      have : ¬ ((m.lane i).testBit 31 = true) := by
        rw [hbit h]
        omega
      simp [this]

/-- Witness for C20: the mask `ivec8(1)` at lane 0. -/
theorem blend_sign_bit_witness :
    ((ivec8.mk1 1).lane 0 < 2 ^ 32 ∧ 0 < bitsInt32 ((ivec8.mk1 1).lane 0) ∧
      any (ivec8.mk1 1) = true ∧
      (blend sampleV1 sampleV2 (ivec8.mk1 1)).lane 0 = sampleV1.lane 0) ∧
    ((ivec8.mk1 (-5)).lane 0 < 2 ^ 32 ∧
      (((ivec8.mk1 (-5)).lane 0).testBit 31 = true ↔ bitsInt32 ((ivec8.mk1 (-5)).lane 0) < 0)) :=
  ⟨⟨by decide, by decide,
    (blend_sign_bit sampleV1 sampleV2 (ivec8.mk1 1) 0).2.2 (by decide) (by decide)⟩,
   ⟨by decide, (blend_sign_bit sampleV1 sampleV2 (ivec8.mk1 (-5)) 0).2.1 (by decide)⟩⟩

/-- C19: `abs` clears exactly the sign bit: the pattern of lane `i` of `abs(v)`
is the pattern of `v[i]` ANDed with `0x7FFFFFFF`, so bit 31 is zero and bits
0 to 30 are unchanged; and `abs(abs(v)) = abs(v)`. -/
theorem abs_clears_sign_bit (v : fvec8 F32) (i : Fin 8) :
    ((abs v).lane i).bits = (v.lane i).bits &&& 0x7FFFFFFF ∧
    ((abs v).lane i).bits.testBit 31 = false ∧
    (∀ k : Fin 31, ((abs v).lane i).bits.testBit k = (v.lane i).bits.testBit k) ∧
    abs (abs v) = abs v := by
  have hl : ∀ (w : fvec8 F32) (j : Fin 8),
      ((abs w).lane j).bits = (w.lane j).bits &&& 0x7FFFFFFF := by
    intro w j
    obtain ⟨⟨a0, a1, a2, a3, a4, a5, a6, a7⟩⟩ := w
    fin_cases j <;> rfl
  have hm : (0x7FFFFFFF : Nat) = 2 ^ 31 - 1 := by norm_num
  refine ⟨hl v i, ?_, ?_, ?_⟩
  · rw [hl, hm, Nat.testBit_and, Nat.testBit_two_pow_sub_one]
    simp
  · intro k
    rw [hl, hm, Nat.testBit_and, Nat.testBit_two_pow_sub_one]
    simp [k.isLt]
  · apply fvec8_ext_lane
    intro j
    have h1 := hl (abs v) j
    have h2 := hl v j
    have : (abs (abs v)).lane j = ⟨((abs (abs v)).lane j).bits⟩ := rfl
    rw [this, h1, h2, Nat.and_assoc, Nat.and_self]
    rw [← h2]

/-- C14: lane `i` of `a & b` is the bitwise AND of the 32-bit patterns of `a[i]`
and `b[i]`, and lane `i` of `a | b` their bitwise OR, bit for bit, the detour
through the float-typed register changing nothing. -/
theorem ivec8_and_or (a b : ivec8) (i : Fin 8) :
    (a.op_and b).lane i = a.lane i &&& b.lane i ∧
    (a.op_or b).lane i = a.lane i ||| b.lane i ∧
    (∀ k : Nat, ((a.op_and b).lane i).testBit k
      = ((a.lane i).testBit k && (b.lane i).testBit k)) ∧
    (∀ k : Nat, ((a.op_or b).lane i).testBit k
      = ((a.lane i).testBit k || (b.lane i).testBit k)) := by
  have h1 : (a.op_and b).lane i = a.lane i &&& b.lane i := by
    obtain ⟨⟨a0, a1, a2, a3, a4, a5, a6, a7⟩⟩ := a
    obtain ⟨⟨b0, b1, b2, b3, b4, b5, b6, b7⟩⟩ := b
    fin_cases i <;> rfl
  have h2 : (a.op_or b).lane i = a.lane i ||| b.lane i := by
    obtain ⟨⟨a0, a1, a2, a3, a4, a5, a6, a7⟩⟩ := a
    obtain ⟨⟨b0, b1, b2, b3, b4, b5, b6, b7⟩⟩ := b
    fin_cases i <;> rfl
  refine ⟨h1, h2, fun k => ?_, fun k => ?_⟩
  · rw [h1, Nat.testBit_and]
  · rw [h2, Nat.testBit_or]

/-- C17: for each of `+`, `-`, `*`, `/` the mixed form `s op v` is
`fvec8(s) op v`, with lane `i` equal to `s op v[i]`; and `v op s`, which
converts `s` by the constructor `fvec8(float)`, has lane `i` equal to
`v[i] op s`.  The lane arithmetic is arbitrary; on binary32 for instance
lane 1 of `1.0f / (1, ..., 8)` is `0.5f` and lane 0 of `(1, ..., 8) - 3.0f` is
`-2.0f`. -/
theorem scalar_vector_arith {α : Type} [Add α] [Sub α] [Mul α] [Div α]
    (s : α) (v : fvec8 α) (i : Fin 8) :
    (scalar_add s v = (fvec8.mk1 s).op_add v ∧ (scalar_add s v).lane i = s + v.lane i) ∧
    (scalar_sub s v = (fvec8.mk1 s).op_sub v ∧ (scalar_sub s v).lane i = s - v.lane i) ∧
    (scalar_mul s v = (fvec8.mk1 s).op_mul v ∧ (scalar_mul s v).lane i = s * v.lane i) ∧
    (scalar_div s v = (fvec8.mk1 s).op_div v ∧ (scalar_div s v).lane i = s / v.lane i) ∧
    (add_scalar v s).lane i = v.lane i + s ∧
    (sub_scalar v s).lane i = v.lane i - s ∧
    (mul_scalar v s).lane i = v.lane i * s ∧
    (div_scalar v s).lane i = v.lane i / s ∧
    (scalar_div (F32.ofNat 1) sampleV1).lane 1 = ⟨0x3F000000⟩ ∧
    (sub_scalar sampleV1 (F32.ofNat 3)).lane 0 = ⟨0xC0000000⟩ := by
  obtain ⟨⟨a0, a1, a2, a3, a4, a5, a6, a7⟩⟩ := v
  refine ⟨⟨rfl, ?_⟩, ⟨rfl, ?_⟩, ⟨rfl, ?_⟩, ⟨rfl, ?_⟩, ?_, ?_, ?_, ?_, by decide, by decide⟩ <;>
    fin_cases i <;> rfl


/-! ### Comparison results used as masks -/

theorem toIvec8_lane (v : fvec8 F32) (i : Fin 8) :
    (v.toIvec8).lane i = F32.cvtt (v.lane i) := by
  obtain ⟨⟨a0, a1, a2, a3, a4, a5, a6, a7⟩⟩ := v
  fin_cases i <;> rfl

theorem cmp_toIvec8_lane (op : CmpOp) (x y : fvec8 F32) (i : Fin 8) :
    ((fvec8.cmp op x y).toIvec8).lane i =
      if scalarCmp op (x.lane i) (y.lane i) = true ∧
          ¬ (op = CmpOp.ne ∧ ((x.lane i).isNaN = true ∨ (y.lane i).isNaN = true))
      then 0x80000000 else 0 := by
  rw [toIvec8_lane, cmp_lane]
  split_ifs
  · decide
  · decide

/-- C12 (amended): the comparison result passed to `blend` as the mask is
converted by `fvec8::operator ivec8`, which turns an all-ones lane (a NaN
pattern) into `0x80000000` and an all-zeros lane into 0; so lane `i` of the
blend is `b[i]` when the scalar comparison of `x[i]` with `y[i]` is true and,
for `!=`, neither is NaN, and `a[i]` otherwise. For `==`, `>`, `<`, `>=`,
`<=` this is `b[i]` exactly when the scalar comparison is true. -/
theorem cmp_blend {α : Type} (op : CmpOp) (x y : fvec8 F32) (a b : fvec8 α) (i : Fin 8) :
    ((blend a b (fvec8.cmp op x y).toIvec8).lane i =
      if scalarCmp op (x.lane i) (y.lane i) = true ∧
          ¬ (op = CmpOp.ne ∧ ((x.lane i).isNaN = true ∨ (y.lane i).isNaN = true))
      then b.lane i else a.lane i) ∧
    (op = CmpOp.ne ∨
      (blend a b (fvec8.cmp op x y).toIvec8).lane i =
        if scalarCmp op (x.lane i) (y.lane i) = true then b.lane i else a.lane i) := by
  have h1 : (blend a b (fvec8.cmp op x y).toIvec8).lane i =
      if scalarCmp op (x.lane i) (y.lane i) = true ∧
          ¬ (op = CmpOp.ne ∧ ((x.lane i).isNaN = true ∨ (y.lane i).isNaN = true))
      then b.lane i else a.lane i := by
    rw [blend_lane, cmp_toIvec8_lane]
    by_cases hc : scalarCmp op (x.lane i) (y.lane i) = true ∧
        ¬ (op = CmpOp.ne ∧ ((x.lane i).isNaN = true ∨ (y.lane i).isNaN = true))
    · have : Nat.testBit 0x80000000 31 = true := by decide
      rw [if_pos hc, if_pos hc, if_pos this]
    · have : ¬ (Nat.testBit 0 31 = true) := by decide
      rw [if_neg hc, if_neg hc, if_neg this]
  refine ⟨h1, ?_⟩
  by_cases hne : op = CmpOp.ne
  · exact Or.inl hne
  · refine Or.inr ?_
    rw [h1]
    simp [hne]

/-- C12 (as stated) fails for `!=` on a NaN lane: with `x` all NaN and `y` all
`1.0f` the scalar `x[0] != y[0]` is true, but lane 0 of the blend is `a[0]`
and not `b[0]`. -/
theorem cmp_blend_ne_nan_counterexample :
    scalarCmp CmpOp.ne ((fvec8.mk1 F32.qnan).lane 0) ((fvec8.mk1 (F32.ofNat 1)).lane 0)
      = true ∧
    (blend sampleV1 sampleV2
        (fvec8.cmp CmpOp.ne (fvec8.mk1 F32.qnan) (fvec8.mk1 (F32.ofNat 1))).toIvec8).lane 0
      = sampleV1.lane 0 ∧
    sampleV1.lane 0 ≠ sampleV2.lane 0 := by
  decide

/-- C13 (amended): `any` applied to a comparison result converted by
`fvec8::operator ivec8` is true exactly when, in at least one lane, the
scalar comparison of `x[i]` with `y[i]` is true and, for `!=`, neither is
NaN. For `==`, `>`, `<`, `>=`, `<=` this is exactly when the scalar
comparison is true in at least one lane. -/
theorem cmp_any (op : CmpOp) (x y : fvec8 F32) :
    (any (fvec8.cmp op x y).toIvec8 = true ↔
      ∃ i : Fin 8, scalarCmp op (x.lane i) (y.lane i) = true ∧
        ¬ (op = CmpOp.ne ∧ ((x.lane i).isNaN = true ∨ (y.lane i).isNaN = true))) ∧
    (op = CmpOp.ne ∨
      (any (fvec8.cmp op x y).toIvec8 = true ↔
        ∃ i : Fin 8, scalarCmp op (x.lane i) (y.lane i) = true)) := by
  have h1 : (any (fvec8.cmp op x y).toIvec8 = true ↔
      ∃ i : Fin 8, scalarCmp op (x.lane i) (y.lane i) = true ∧
        ¬ (op = CmpOp.ne ∧ ((x.lane i).isNaN = true ∨ (y.lane i).isNaN = true))) := by
    rw [any_true_iff_mod]
    constructor
    · rintro ⟨i, hi⟩
      refine ⟨i, ?_⟩
      rw [cmp_toIvec8_lane] at hi
      by_contra hc
      rw [if_neg hc] at hi
      exact hi rfl
    · rintro ⟨i, hi⟩
      refine ⟨i, ?_⟩
      rw [cmp_toIvec8_lane, if_pos hi]
      decide
  refine ⟨h1, ?_⟩
  by_cases hne : op = CmpOp.ne
  · exact Or.inl hne
  · refine Or.inr ?_
    rw [h1]
    simp [hne]

/-- C13 (as stated) fails for `!=` with NaN: with `x` all NaN and `y` the
vector `(1, ..., 8)` the scalar `x[3] != y[3]` is true, but `any(x != y)` is
false. -/
theorem cmp_any_ne_nan_counterexample :
    ¬ (any (fvec8.cmp CmpOp.ne (fvec8.mk1 F32.qnan) sampleV1).toIvec8 = true ↔
      ∃ i : Fin 8,
        scalarCmp CmpOp.ne ((fvec8.mk1 F32.qnan).lane i) (sampleV1.lane i) = true) := by
  decide


/-! ### Rounding lemmas -/

theorem leadingBitAux_spec (fuel n : Nat) (hn : 0 < n) (hf : n ≤ fuel) :
    2 ^ F32.leadingBitAux fuel n ≤ n ∧ n < 2 ^ (F32.leadingBitAux fuel n + 1) := by
  induction fuel generalizing n with
  | zero => omega
  | succ f ih =>
    unfold F32.leadingBitAux
    split_ifs with h2
    · constructor
      · simpa using hn
      · simpa using h2
    · have hpos : 0 < n / 2 := by omega
      have hle : n / 2 ≤ f := by omega
      obtain ⟨h1, h3⟩ := ih (n / 2) hpos hle
      rw [Nat.pow_succ] at h3 ⊢
      rw [Nat.pow_succ]
      constructor <;> omega

theorem leadingBit_spec (m : Nat) (hm : 0 < m) :
    2 ^ F32.leadingBit m ≤ m ∧ m < 2 ^ (F32.leadingBit m + 1) :=
  leadingBitAux_spec m m hm (Nat.le_refl m)

theorem leadingBit_eq (m L : Nat) (h1 : 2 ^ L ≤ m) (h2 : m < 2 ^ (L + 1)) :
    F32.leadingBit m = L := by
  have hm : 0 < m := Nat.lt_of_lt_of_le (Nat.two_pow_pos L) h1
  obtain ⟨h3, h4⟩ := leadingBit_spec m hm
  have ha : F32.leadingBit m < L + 1 :=
    (Nat.pow_lt_pow_iff_right (by decide : 1 < 2)).1 (Nat.lt_of_le_of_lt h3 h2)
  have hb : L < F32.leadingBit m + 1 :=
    (Nat.pow_lt_pow_iff_right (by decide : 1 < 2)).1 (Nat.lt_of_le_of_lt h1 h4)
  omega

theorem round_exact (s : Bool) (sg k : Nat) (hsg : 0 < sg) (hlt : sg < 2 ^ 24)
    (hk : k = 0 ∨ 2 ^ 23 ≤ sg) (hE : k ≤ 253) :
    F32.round s (sg * 2 ^ k) (-149) = ⟨F32.signBit s + (k * 2 ^ 23 + sg)⟩ := by
  obtain ⟨hL1, hL2⟩ := leadingBit_spec sg hsg
  have hL0 : F32.leadingBit sg ≤ 23 := by
    have : F32.leadingBit sg < 24 :=
      (Nat.pow_lt_pow_iff_right (by decide : 1 < 2)).1 (Nat.lt_of_le_of_lt hL1 hlt)
    omega
  have hLk : k = 0 ∨ F32.leadingBit sg = 23 := by
    rcases hk with h | h
    · exact Or.inl h
    · exact Or.inr (leadingBit_eq sg 23 h hlt)
  have hLm : F32.leadingBit (sg * 2 ^ k) = F32.leadingBit sg + k := by
    apply leadingBit_eq
    · rw [Nat.pow_add]
      exact Nat.mul_le_mul_right _ hL1
    · rw [show F32.leadingBit sg + k + 1 = (F32.leadingBit sg + 1) + k by omega, Nat.pow_add]
      exact Nat.mul_lt_mul_of_pos_right hL2 (Nat.two_pow_pos k)
  have hq : max ((-149 : Int) + ((F32.leadingBit (sg * 2 ^ k) : Nat) : Int) - 23) (-149)
      = (k : Int) - 149 := by
    rw [hLm]
    omega
  unfold F32.round
  simp only [hq]
  have hn : (if (k : Int) - 149 ≤ -149 then sg * 2 ^ k * 2 ^ ((-149 : Int) - ((k : Int) - 149)).toNat
      else
        if sg * 2 ^ k % 2 ^ ((k : Int) - 149 - (-149)).toNat > 2 ^ (((k : Int) - 149 - (-149)).toNat - 1) ∨
            (sg * 2 ^ k % 2 ^ ((k : Int) - 149 - (-149)).toNat = 2 ^ (((k : Int) - 149 - (-149)).toNat - 1) ∧
              sg * 2 ^ k / 2 ^ ((k : Int) - 149 - (-149)).toNat % 2 = 1)
        then sg * 2 ^ k / 2 ^ ((k : Int) - 149 - (-149)).toNat + 1
        else sg * 2 ^ k / 2 ^ ((k : Int) - 149 - (-149)).toNat) = sg := by
    have e1 : ((k : Int) - 149 - (-149)).toNat = k := by omega
    split_ifs with hc hr
    · have : k = 0 := by omega
      subst this
      simp
    · exfalso
      rw [e1, Nat.mul_mod_left] at hr
      have := Nat.two_pow_pos (k - 1)
      omega
    · rw [e1]
      exact Nat.mul_div_cancel _ (Nat.two_pow_pos k)
  simp only [hn]
  have hmag : ((k : Int) - 149 + 149).toNat = k := by omega
  rw [hmag]
  have : ¬ (k * 2 ^ 23 + sg ≥ 0x7F800000) := by
    norm_num at hlt ⊢
    omega
  rw [if_neg this]


/-! ### Negation -/

theorem xor_signbit (b : Nat) (h : b < 2 ^ 32) :
    b ^^^ 0x80000000 = if b < 2 ^ 31 then b + 2 ^ 31 else b - 2 ^ 31 := by
  have h31 : (0x80000000 : Nat) = 2 ^ 31 := by norm_num
  have hhigh : ∀ (c i : Nat), c < 2 ^ 32 → 31 < i → c.testBit i = false := by
    intro c i hc hi
    apply Nat.testBit_lt_two_pow
    exact Nat.lt_of_lt_of_le hc (Nat.pow_le_pow_right (by decide) (by omega))
  apply Nat.eq_of_testBit_eq
  intro i
  rw [Nat.testBit_xor, h31, Nat.testBit_two_pow]
  split_ifs with hlt
  · rw [Nat.add_comm]
    rcases Nat.lt_trichotomy i 31 with hi | hi | hi
    · rw [Nat.testBit_two_pow_add_gt hi]
      have : ¬ (31 = i) := by omega
      simp [this]
    · subst hi
      rw [Nat.testBit_two_pow_add_eq]
      simp
    · rw [hhigh b i h hi, hhigh (2 ^ 31 + b) i (by omega) hi]
      have : ¬ (31 = i) := by omega
      simp [this]
  · obtain ⟨c, rfl⟩ : ∃ c, b = 2 ^ 31 + c := ⟨b - 2 ^ 31, by omega⟩
    have hc : c < 2 ^ 31 := by omega
    rw [Nat.add_sub_cancel_left]
    rcases Nat.lt_trichotomy i 31 with hi | hi | hi
    · rw [Nat.testBit_two_pow_add_gt hi]
      have : ¬ (31 = i) := by omega
      simp [this]
    · subst hi
      rw [Nat.testBit_two_pow_add_eq, Nat.testBit_lt_two_pow hc]
      simp
    · rw [hhigh (2 ^ 31 + c) i h hi, hhigh c i (by omega) hi]
      have : ¬ (31 = i) := by omega
      simp [this]

theorem flipSign_bits (x : F32) (h : x.bits < 2 ^ 32) :
    x.flipSign.bits = if x.bits < 2 ^ 31 then x.bits + 2 ^ 31 else x.bits - 2 ^ 31 :=
  xor_signbit x.bits h

theorem zero_sub_eq (x : F32) (h : x.bits < 2 ^ 32) :
    (0 : F32) - x =
      if x.isNaN = true then x.quiet else if x.bits = 0 then ⟨0⟩ else x.flipSign := by
  have hfb := flipSign_bits x h
  have hy32 : x.flipSign.bits < 2 ^ 32 := by rw [hfb]; split_ifs <;> omega
  have hexpo : x.flipSign.expo = x.expo := by
    simp only [F32.expo, hfb]; split_ifs <;> omega
  have hmant : x.flipSign.mant = x.mant := by
    simp only [F32.mant, hfb]; split_ifs <;> omega
  have hnan : x.flipSign.isNaN = x.isNaN := by simp only [F32.isNaN, hexpo, hmant]
  have hinf : x.flipSign.isInf = x.isInf := by simp only [F32.isInf, hexpo, hmant]
  have hsig : x.flipSign.sig = x.sig := by simp only [F32.sig, hexpo, hmant]
  have hscale : x.flipSign.scale = x.scale := by simp only [F32.scale, hexpo]
  show F32.sub (F32.zero false) x = _
  have hz0 : (F32.zero false) = ⟨0⟩ := rfl
  have hzn : (F32.zero false).isNaN = false := by decide
  have hzi : (F32.zero false).isInf = false := by decide
  have hzs : (F32.zero false).scale = -149 := by decide
  have hzss : (F32.zero false).signedSig = 0 := by decide
  have hzsign : (F32.zero false).sign = false := by decide
  unfold F32.sub
  rw [hzn]
  by_cases hN : x.isNaN = true
  · simp [hN]
  · simp only [hN, if_false, Bool.false_eq_true]
    unfold F32.add
    rw [hzn, hnan]
    simp only [hN, if_false, Bool.false_eq_true, hzi, hinf]
    by_cases hI : x.isInf = true
    · have hne : x.bits ≠ 0 := by
        intro h0
        have h255 : x.expo = 255 := by
          simp only [F32.isInf, Bool.and_eq_true, beq_iff_eq] at hI
          exact hI.1
        simp only [F32.expo, h0] at h255
        omega
      simp [hI, hne]
    · simp only [hI, if_false, Bool.false_eq_true, hzs, hzss, hzsign, hscale]
      have hbits : x.bits = (x.bits / 2 ^ 31) * 2 ^ 31 + x.expo * 2 ^ 23 + x.mant := by
        simp only [F32.expo, F32.mant]; omega
      have hs01 : x.bits / 2 ^ 31 = 0 ∨ x.bits / 2 ^ 31 = 1 := by omega
      have hE : x.expo ≤ 254 := by
        have h1 : x.expo < 256 := by simp only [F32.expo]; omega
        by_contra hc
        have h255 : x.expo = 255 := by omega
        by_cases hm : x.mant = 0
        · exact hI (by simp [F32.isInf, h255, hm])
        · exact hN (by simp [F32.isNaN, h255, hm])
      have hM : x.mant < 2 ^ 23 := by simp only [F32.mant]; omega
      obtain ⟨k, hk⟩ : ∃ k : Nat, k = if x.expo = 0 then 0 else x.expo - 1 := ⟨_, rfl⟩
      have hsc : x.scale = (k : Int) - 149 := by
        simp only [F32.scale]; split_ifs at hk ⊢ <;> omega
      have hmin : min (-149 : Int) x.scale = -149 := by omega
      have hk1 : (x.scale - -149).toNat = k := by omega
      have hk0 : ((-149 : Int) - -149).toNat = 0 := by decide
      rw [hmin, hk1, hk0]
      have hysign : x.flipSign.sign = decide (x.bits < 2 ^ 31) := by
        simp only [F32.sign, hfb]
        split_ifs with hc
        · simp only [hc, decide_True, decide_eq_true_eq]; omega
        · simp only [hc, decide_False, decide_eq_false_iff_not]; omega
      by_cases hs0 : x.sig = 0
      · have hEM : x.expo = 0 ∧ x.mant = 0 := by
          simp only [F32.sig] at hs0; split_ifs at hs0 with he
          · exact ⟨he, hs0⟩
          · omega
        have ht : (0 : Int) * 2 ^ 0 + x.flipSign.signedSig * 2 ^ k = 0 := by
          simp [F32.signedSig, hsig, hs0]
        rw [if_pos ht]
        by_cases hb0 : x.bits = 0
        · rw [if_pos hb0]; rfl
        · rw [if_neg hb0]
          have hb31 : x.bits = 2 ^ 31 := by omega
          have : x.flipSign.bits = 0 := by rw [hfb, hb31]; decide
          show F32.zero (false && x.flipSign.sign) = ⟨x.flipSign.bits⟩
          rw [this]; rfl
      · have hpos : 0 < x.sig := Nat.pos_of_ne_zero hs0
        have hpk : (0 : Int) < ((x.sig * 2 ^ k : Nat) : Int) := by
          have := Nat.mul_pos hpos (Nat.two_pow_pos k)
          exact_mod_cast this
        have hcast : ((x.sig * 2 ^ k : Nat) : Int) = (x.sig : Int) * 2 ^ k := by push_cast; rfl
        have hb0 : x.bits ≠ 0 := by
          intro h0
          apply hs0
          simp only [F32.sig]
          split_ifs <;> omega
        rw [if_neg hb0]
        have hsiglt : x.sig < 2 ^ 24 := by simp only [F32.sig]; split_ifs <;> omega
        have hkk : k = 0 ∨ 2 ^ 23 ≤ x.sig := by
          simp only [F32.sig]; split_ifs at hk ⊢ with he
          · exact Or.inl hk
          · right; omega
        have hk253 : k ≤ 253 := by split_ifs at hk <;> omega
        have hre := round_exact x.flipSign.sign x.sig k hpos hsiglt hkk hk253
        have hfinal : (⟨F32.signBit x.flipSign.sign + (k * 2 ^ 23 + x.sig)⟩ : F32)
            = x.flipSign := by
          show _ = (⟨x.flipSign.bits⟩ : F32)
          congr 1
          rw [hysign, hfb]
          have hsigv : x.sig = if x.expo = 0 then x.mant else x.mant + 2 ^ 23 := rfl
          by_cases hc : x.bits < 2 ^ 31
          · simp only [F32.signBit, hc, decide_True, if_true]
            split_ifs at hk hsigv <;> omega
          · simp only [F32.signBit, hc, decide_False, if_false, Bool.false_eq_true]
            split_ifs at hk hsigv <;> omega
        by_cases hsgn : x.flipSign.sign = true
        · have ht : (0 : Int) * 2 ^ 0 + x.flipSign.signedSig * 2 ^ k
              = -((x.sig * 2 ^ k : Nat) : Int) := by
            simp [F32.signedSig, hsig, hsgn]
          rw [ht]
          have hne : ¬ (-((x.sig * 2 ^ k : Nat) : Int) = 0) := by omega
          have hlt0 : (-((x.sig * 2 ^ k : Nat) : Int) < 0) := by omega
          rw [if_neg hne, Int.natAbs_neg, Int.natAbs_ofNat]
          simp only [hlt0, decide_True]
          rw [← hsgn, hre, hfinal]
        · have ht : (0 : Int) * 2 ^ 0 + x.flipSign.signedSig * 2 ^ k
              = ((x.sig * 2 ^ k : Nat) : Int) := by
            simp [F32.signedSig, hsig, hsgn]
          rw [ht]
          have hne : ¬ (((x.sig * 2 ^ k : Nat) : Int) = 0) := by omega
          have hlt0 : ¬ (((x.sig * 2 ^ k : Nat) : Int) < 0) := by omega
          rw [if_neg hne, Int.natAbs_ofNat]
          simp only [hlt0, decide_False]
          have hsf : x.flipSign.sign = false := by simpa using hsgn
          rw [← hsf, hre, hfinal]

theorem op_neg_lane (v : fvec8 F32) (i : Fin 8) :
    (v.op_neg).lane i = (0 : F32) - v.lane i := by
  obtain ⟨⟨a0, a1, a2, a3, a4, a5, a6, a7⟩⟩ := v
  fin_cases i <;> rfl

theorem quiet_sign (x : F32) : x.quiet.sign = x.sign := by
  obtain ⟨b⟩ := x
  rw [sign_eq_testBit]
  show (b ||| 0x00400000).testBit 31 = _
  rw [Nat.testBit_or, sign_eq_testBit]
  have : Nat.testBit 0x00400000 31 = false := by decide
  rw [this, Bool.or_false]

/-- C18 (amended): unary minus computes `0.0f - v[i]` in every lane. For a lane
holding a 32-bit pattern that is neither NaN nor positive zero (nonzero
finite values, negative zero, infinities) the result is the pattern with the
sign bit inverted; for positive zero it is positive zero; for a NaN it is
that NaN with the quiet bit set and the sign bit unchanged. -/
theorem neg_lane (v : fvec8 F32) (i : Fin 8) (h : (v.lane i).bits < 2 ^ 32) :
    (v.op_neg).lane i = (0 : F32) - v.lane i ∧
    ((v.op_neg).lane i =
      if (v.lane i).isNaN = true then (v.lane i).quiet
      else if (v.lane i).bits = 0 then ⟨0⟩ else (v.lane i).flipSign) ∧
    ((v.lane i).isNaN = true ∨ (v.lane i).bits = 0 ∨
      (v.op_neg).lane i = (v.lane i).flipSign) ∧
    ((v.lane i).isNaN = false ∨ ((v.op_neg).lane i).sign = (v.lane i).sign) := by
  have h2 : (v.op_neg).lane i =
      if (v.lane i).isNaN = true then (v.lane i).quiet
      else if (v.lane i).bits = 0 then ⟨0⟩ else (v.lane i).flipSign := by
    rw [op_neg_lane, zero_sub_eq _ h]
  refine ⟨op_neg_lane v i, h2, ?_, ?_⟩
  · by_cases hn : (v.lane i).isNaN = true
    · exact Or.inl hn
    · by_cases h0 : (v.lane i).bits = 0
      · exact Or.inr (Or.inl h0)
      · refine Or.inr (Or.inr ?_)
        rw [h2, if_neg hn, if_neg h0]
  · by_cases hn : (v.lane i).isNaN = true
    · refine Or.inr ?_
      rw [h2, if_pos hn, quiet_sign]
    · exact Or.inl (by simpa using hn)

/-- Witness for C18 (amended): lane 2 of `-(1, ..., 8)` is `-3.0f`. -/
theorem neg_lane_witness :
    (sampleV1.lane 2).bits < 2 ^ 32 ∧
    (sampleV1.op_neg).lane 2 = (sampleV1.lane 2).flipSign ∧
    (sampleV1.lane 2).flipSign = ⟨0xC0400000⟩ :=
  ⟨by decide,
   ((neg_lane sampleV1 2 (by decide)).2.2.1.resolve_left (by decide)).resolve_left
     (by decide),
   by decide⟩

/-- C18 (as stated) fails for positive zero and for NaN: lane 0 of `-fvec8(0.0f)`
is `+0.0f`, not the sign-inverted pattern `0x80000000`, and lane 0 of
`-fvec8(NaN)` keeps the sign bit of the NaN. -/
theorem neg_zero_nan_counterexample :
    ((fvec8.mk1 (0 : F32)).op_neg).lane 0 = ⟨0⟩ ∧
    ((fvec8.mk1 (0 : F32)).lane 0).flipSign = ⟨0x80000000⟩ ∧
    ((fvec8.mk1 (0 : F32)).op_neg).lane 0 ≠ ((fvec8.mk1 (0 : F32)).lane 0).flipSign ∧
    ((fvec8.mk1 F32.qnan).op_neg).lane 0 ≠ ((fvec8.mk1 F32.qnan).lane 0).flipSign := by
  decide



/-! ### Conversions -/

theorem truncQ_neg (q : ℚ) : truncQ (-q) = -truncQ q := by
  unfold truncQ
  rcases lt_trichotomy q 0 with h | h | h
  · have h1 : 0 ≤ -q := by linarith
    have h2 : ¬ (0 ≤ q) := by linarith
    rw [if_pos h1, if_neg h2, Int.floor_neg]
  · subst h
    simp
  · have h1 : ¬ (0 ≤ -q) := by linarith
    have h2 : 0 ≤ q := by linarith
    rw [if_neg h1, if_pos h2, Int.ceil_neg]

theorem truncQ_mag (x : F32) :
    truncQ ((x.sig : ℚ) * (2 : ℚ) ^ x.scale) = (x.truncMag : Int) := by
  have h2 : (2 : ℚ) ≠ 0 := by norm_num
  unfold F32.truncMag
  by_cases hs : 0 ≤ x.scale
  · rw [if_pos hs]
    obtain ⟨n, hn⟩ : ∃ n : ℕ, x.scale = (n : Int) := ⟨x.scale.toNat, by omega⟩
    rw [hn, zpow_natCast, Int.toNat_ofNat]
    have : (x.sig : ℚ) * 2 ^ n = ((x.sig * 2 ^ n : ℕ) : ℚ) := by push_cast; rfl
    rw [this]
    unfold truncQ
    rw [if_pos (Nat.cast_nonneg _), Int.floor_natCast]
  · rw [if_neg hs]
    obtain ⟨n, hn⟩ : ∃ n : ℕ, x.scale = -(n : Int) := ⟨(-x.scale).toNat, by omega⟩
    rw [hn, zpow_neg, zpow_natCast, neg_neg, Int.toNat_ofNat]
    have : (x.sig : ℚ) * (2 ^ n)⁻¹ = ((x.sig : ℕ) : ℚ) / ((2 ^ n : ℕ) : ℚ) := by
      push_cast
      rw [div_eq_mul_inv]
    rw [this]
    unfold truncQ
    rw [if_pos (by positivity), Rat.floor_natCast_div_natCast]
    rfl

theorem truncQ_toRat (x : F32) :
    truncQ x.toRat = if x.sign = true then -(x.truncMag : Int) else (x.truncMag : Int) := by
  unfold F32.toRat F32.signedSig
  split_ifs with hs
  · have : (((-(x.sig : Int) : Int)) : ℚ) * (2 : ℚ) ^ x.scale
        = -((x.sig : ℚ) * (2 : ℚ) ^ x.scale) := by push_cast; ring
    rw [this, truncQ_neg, truncQ_mag]
  · have : (((x.sig : Int) : Int) : ℚ) * (2 : ℚ) ^ x.scale
        = (x.sig : ℚ) * (2 : ℚ) ^ x.scale := by push_cast; ring
    rw [this, truncQ_mag]

theorem cvtt_trunc (x : F32) (hf : x.isFinite = true) (hr : IsInt32 (truncQ x.toRat)) :
    bitsInt32 (F32.cvtt x) = truncQ x.toRat := by
  have hni : (x.isNaN || x.isInf) = false := by
    cases hc : (x.isNaN || x.isInf)
    · rfl
    · simp [F32.isFinite, hc] at hf
  have ht := truncQ_toRat x
  unfold F32.cvtt
  rw [hni]
  simp only [Bool.false_eq_true, if_false]
  rw [← ht, if_pos hr, bitsInt32_int32Bits _ hr]

theorem cvtt_special (x : F32) :
    (x.isFinite = false → F32.cvtt x = 0x80000000) ∧
    (x.isFinite = true → ¬ IsInt32 (truncQ x.toRat) → F32.cvtt x = 0x80000000) := by
  have ht := truncQ_toRat x
  constructor
  · intro hf
    have hni : (x.isNaN || x.isInf) = true := by
      cases hc : (x.isNaN || x.isInf)
      · simp [F32.isFinite, hc] at hf
      · rfl
    unfold F32.cvtt
    rw [if_pos hni]
  · intro hf hr
    have hni : (x.isNaN || x.isInf) = false := by
      cases hc : (x.isNaN || x.isInf)
      · rfl
      · simp [F32.isFinite, hc] at hf
    unfold F32.cvtt
    rw [hni]
    simp only [Bool.false_eq_true, if_false]
    rw [← ht, if_neg hr]


theorem toRat_encoded (s : Bool) (E c : Nat) (hE : E ≤ 252) (hc1 : 2 ^ 23 ≤ c)
    (hc2 : c ≤ 2 ^ 24) :
    (F32.mk (F32.signBit s + (E * 2 ^ 23 + c))).isFinite = true ∧
    (F32.mk (F32.signBit s + (E * 2 ^ 23 + c))).toRat
      = (if s = true then -(c : ℚ) else (c : ℚ)) * (2 : ℚ) ^ ((E : ℤ) - 149) := by
  have h2 : (2 : ℚ) ≠ 0 := by norm_num
  have hsb : F32.signBit s = if s = true then 2 ^ 31 else 0 := rfl
  have hsign : (F32.mk (F32.signBit s + (E * 2 ^ 23 + c))).sign = s := by
    simp only [F32.sign, hsb]
    cases s
    · simp only [Bool.false_eq_true, if_false, decide_eq_false_iff_not]; omega
    · simp only [if_true, decide_eq_true_eq]; omega
  have hexpo : (F32.mk (F32.signBit s + (E * 2 ^ 23 + c))).expo
      = if c < 2 ^ 24 then E + 1 else E + 2 := by
    simp only [F32.expo, hsb]
    cases s <;> simp only [Bool.false_eq_true, if_false, if_true] <;> split_ifs <;> omega
  have hmant : (F32.mk (F32.signBit s + (E * 2 ^ 23 + c))).mant
      = if c < 2 ^ 24 then c - 2 ^ 23 else 0 := by
    simp only [F32.mant, hsb]
    cases s <;> simp only [Bool.false_eq_true, if_false, if_true] <;> split_ifs <;> omega
  constructor
  · have hne : (F32.mk (F32.signBit s + (E * 2 ^ 23 + c))).expo ≠ 255 := by
      rw [hexpo]; split_ifs <;> omega
    have h1 : ((F32.mk (F32.signBit s + (E * 2 ^ 23 + c))).expo == 255) = false := by
      simpa using hne
    simp only [F32.isFinite, F32.isNaN, F32.isInf, h1, Bool.false_and, Bool.or_false,
      Bool.not_false]
  · simp only [F32.toRat, F32.signedSig, F32.sig, F32.scale, hsign, hexpo, hmant]
    by_cases hc : c < 2 ^ 24
    · have he : ¬ (E + 1 = 0) := by omega
      simp only [hc, if_true, he, if_false]
      have hcc : c - 2 ^ 23 + 2 ^ 23 = c := by omega
      have hexp : (((E + 1 : ℕ) : ℤ) - 150) = (E : ℤ) - 149 := by push_cast; ring
      rw [hcc, hexp]
      cases s <;> simp
    · have he : ¬ (E + 2 = 0) := by omega
      have hceq : c = 2 ^ 24 := by omega
      simp only [hc, if_false, he]
      have hexp : (((E + 2 : ℕ) : ℤ) - 150) = ((E : ℤ) - 149) + 1 := by push_cast; ring
      rw [hexp, zpow_add₀ h2, zpow_one, hceq]
      cases s <;> simp <;> ring

theorem dist_grid (m u n0 r : ℕ) (e : ℚ) (hm : m = n0 * u + r)
    (he1 : e ≤ r) (he2 : e ≤ (u : ℚ) - r) (j : ℤ) :
    e ≤ |(j : ℚ) * u - m| := by
  have hmq : (m : ℚ) = n0 * u + r := by rw [hm]; push_cast; ring
  have hu0 : (0 : ℚ) ≤ u := Nat.cast_nonneg u
  rcases le_or_lt j (n0 : ℤ) with hj | hj
  · have h1 : (j : ℚ) ≤ (n0 : ℚ) := by exact_mod_cast hj
    have h2 : (j : ℚ) * u ≤ n0 * u := mul_le_mul_of_nonneg_right h1 hu0
    have h3 : (m : ℚ) - j * u ≤ |(j : ℚ) * u - m| := by
      rw [abs_sub_comm]; exact le_abs_self _
    linarith
  · have h1 : (n0 : ℚ) + 1 ≤ (j : ℚ) := by exact_mod_cast hj
    have h2 : ((n0 : ℚ) + 1) * u ≤ j * u := mul_le_mul_of_nonneg_right h1 hu0
    have h3 : (j : ℚ) * u - m ≤ |(j : ℚ) * u - m| := le_abs_self _
    linarith

theorem dist_small (m : ℕ) (B e q : ℚ) (hq : |q| < B) (hB : B + e ≤ m) :
    e ≤ |q - m| := by
  have h1 : q ≤ |q| := le_abs_self q
  have h3 : (m : ℚ) - q ≤ |q - m| := by
    rw [abs_sub_comm]; exact le_abs_self _
  linarith

theorem toRat_grid (z : F32) (σ : Bool) (d : ℕ) :
    (∃ j : ℤ, (if σ = true then -z.toRat else z.toRat) = (j : ℚ) * ((2 ^ d : ℕ) : ℚ)) ∨
    |if σ = true then -z.toRat else z.toRat| < ((2 ^ (d + 23) : ℕ) : ℚ) := by
  have h2 : (2 : ℚ) ≠ 0 := by norm_num
  have hsig : z.sig < 2 ^ 24 := by
    have : z.mant < 2 ^ 23 := by simp only [F32.mant]; omega
    simp only [F32.sig]; split_ifs <;> omega
  have habs : |if σ = true then -z.toRat else z.toRat| = (z.sig : ℚ) * (2 : ℚ) ^ z.scale := by
    have hpos : (0 : ℚ) ≤ (z.sig : ℚ) * (2 : ℚ) ^ z.scale := by positivity
    have : |z.toRat| = (z.sig : ℚ) * (2 : ℚ) ^ z.scale := by
      unfold F32.toRat F32.signedSig
      split_ifs
      · push_cast
        rw [neg_mul, abs_neg, abs_of_nonneg hpos]
      · push_cast
        rw [abs_of_nonneg hpos]
    split_ifs
    · rw [abs_neg, this]
    · exact this
  by_cases hs : (d : ℤ) ≤ z.scale
  · left
    obtain ⟨k, hk⟩ : ∃ k : ℕ, z.scale = (k : ℤ) + (d : ℤ) := ⟨(z.scale - d).toNat, by omega⟩
    have hpow : (2 : ℚ) ^ z.scale = ((2 ^ k : ℕ) : ℚ) * ((2 ^ d : ℕ) : ℚ) := by
      rw [hk, zpow_add₀ h2, zpow_natCast, zpow_natCast]
      push_cast
      rfl
    refine ⟨(if σ = true then -z.signedSig else z.signedSig) * (2 ^ k : ℕ), ?_⟩
    unfold F32.toRat
    rw [hpow]
    split_ifs <;> push_cast <;> ring
  · right
    rw [habs]
    have hle : (2 : ℚ) ^ z.scale ≤ (2 : ℚ) ^ ((d : ℤ) - 1) :=
      zpow_le_zpow_right₀ (by norm_num) (by omega)
    have hsq : (z.sig : ℚ) < 2 ^ 24 := by exact_mod_cast hsig
    have hpp : (0 : ℚ) < (2 : ℚ) ^ ((d : ℤ) - 1) := by positivity
    have h24 : (2 : ℚ) ^ 24 * (2 : ℚ) ^ ((d : ℤ) - 1) = ((2 ^ (d + 23) : ℕ) : ℚ) := by
      have : ((d + 23 : ℕ) : ℤ) = 24 + ((d : ℤ) - 1) := by push_cast; ring
      push_cast
      rw [← zpow_natCast (2 : ℚ) (d + 23), this, zpow_add₀ h2]
      norm_num
    calc (z.sig : ℚ) * (2 : ℚ) ^ z.scale
        ≤ (z.sig : ℚ) * (2 : ℚ) ^ ((d : ℤ) - 1) :=
          mul_le_mul_of_nonneg_left hle (Nat.cast_nonneg _)
      _ < 2 ^ 24 * (2 : ℚ) ^ ((d : ℤ) - 1) := mul_lt_mul_of_pos_right hsq hpp
      _ = ((2 ^ (d + 23) : ℕ) : ℚ) := h24


theorem round_int_small (s : Bool) (m : Nat) (hm : 0 < m) (hL : F32.leadingBit m ≤ 23) :
    F32.round s m 0
      = ⟨F32.signBit s + ((F32.leadingBit m + 126) * 2 ^ 23 + m * 2 ^ (23 - F32.leadingBit m))⟩ ∧
    2 ^ 23 ≤ m * 2 ^ (23 - F32.leadingBit m) ∧ m * 2 ^ (23 - F32.leadingBit m) < 2 ^ 24 := by
  obtain ⟨hL1, hL2⟩ := leadingBit_spec m hm
  obtain ⟨L, hLd⟩ : ∃ L, L = F32.leadingBit m := ⟨_, rfl⟩
  rw [← hLd] at hL hL1 hL2 ⊢
  have hc1 : 2 ^ 23 ≤ m * 2 ^ (23 - L) := by
    calc 2 ^ 23 = 2 ^ L * 2 ^ (23 - L) := by rw [← Nat.pow_add]; congr 1; omega
      _ ≤ m * 2 ^ (23 - L) := Nat.mul_le_mul_right _ hL1
  have hc2 : m * 2 ^ (23 - L) < 2 ^ 24 := by
    calc m * 2 ^ (23 - L) < 2 ^ (L + 1) * 2 ^ (23 - L) :=
          Nat.mul_lt_mul_of_pos_right hL2 (Nat.two_pow_pos _)
      _ = 2 ^ 24 := by rw [← Nat.pow_add]; congr 1; omega
  refine ⟨?_, hc1, hc2⟩
  have hq : max ((0 : Int) + ((F32.leadingBit m : Nat) : Int) - 23) (-149) = (L : Int) - 23 := by
    rw [← hLd]; omega
  unfold F32.round
  simp only [hq]
  have hle : (L : Int) - 23 ≤ 0 := by omega
  have e1 : ((0 : Int) - ((L : Int) - 23)).toNat = 23 - L := by omega
  have e2 : ((L : Int) - 23 + 149).toNat = L + 126 := by omega
  rw [if_pos hle, e1, e2]
  have : ¬ ((L + 126) * 2 ^ 23 + m * 2 ^ (23 - L) ≥ 0x7F800000) := by
    norm_num at hc2 ⊢
    omega
  rw [if_neg this]

theorem round_int_large (s : Bool) (m sh : Nat) (hm : 0 < m) (hsh : 1 ≤ sh) (hsh2 : sh ≤ 100)
    (hL : F32.leadingBit m = sh + 23) :
    F32.round s m 0
      = ⟨F32.signBit s + ((sh + 149) * 2 ^ 23 +
          (if m % 2 ^ sh > 2 ^ (sh - 1) ∨ (m % 2 ^ sh = 2 ^ (sh - 1) ∧ m / 2 ^ sh % 2 = 1)
            then m / 2 ^ sh + 1 else m / 2 ^ sh))⟩ ∧
    2 ^ 23 ≤ m / 2 ^ sh ∧ m / 2 ^ sh < 2 ^ 24 := by
  obtain ⟨hL1, hL2⟩ := leadingBit_spec m hm
  rw [hL] at hL1 hL2
  have hn1 : 2 ^ 23 ≤ m / 2 ^ sh := by
    rw [Nat.le_div_iff_mul_le (Nat.two_pow_pos sh), ← Nat.pow_add, Nat.add_comm]
    exact hL1
  have hn2 : m / 2 ^ sh < 2 ^ 24 := by
    rw [Nat.div_lt_iff_lt_mul (Nat.two_pow_pos sh), ← Nat.pow_add]
    have : 24 + sh = sh + 23 + 1 := by omega
    rw [this]
    exact hL2
  refine ⟨?_, hn1, hn2⟩
  have hq : max ((0 : Int) + ((F32.leadingBit m : Nat) : Int) - 23) (-149) = (sh : Int) := by
    rw [hL]; omega
  unfold F32.round
  simp only [hq]
  have hle : ¬ ((sh : Int) ≤ 0) := by omega
  have e1 : ((sh : Int) - 0).toNat = sh := by omega
  have e2 : ((sh : Int) + 149).toNat = sh + 149 := by omega
  rw [if_neg hle, e1, e2]
  have : ¬ ((sh + 149) * 2 ^ 23 +
      (if m % 2 ^ sh > 2 ^ (sh - 1) ∨ (m % 2 ^ sh = 2 ^ (sh - 1) ∧ m / 2 ^ sh % 2 = 1)
        then m / 2 ^ sh + 1 else m / 2 ^ sh) ≥ 0x7F800000) := by
    split_ifs <;> norm_num at hn2 ⊢ <;> omega
  rw [if_neg this]


theorem round_int_nearest (s : Bool) (m : Nat) (hm : 0 < m) (hle : m ≤ 2 ^ 31) :
    (F32.round s m 0).isFinite = true ∧
    ∃ N : ℕ, (F32.round s m 0).toRat = (if s = true then -(N : ℚ) else (N : ℚ)) ∧
      ∀ (z : F32) (σ : Bool),
        |(N : ℚ) - m| ≤ |(if σ = true then -z.toRat else z.toRat) - m| := by
  have h2 : (2 : ℚ) ≠ 0 := by norm_num
  obtain ⟨hL1, hL2⟩ := leadingBit_spec m hm
  have hL31 : F32.leadingBit m ≤ 31 :=
    (Nat.pow_le_pow_iff_right (by decide : 1 < 2)).1 (Nat.le_trans hL1 hle)
  by_cases hL : F32.leadingBit m ≤ 23
  · obtain ⟨hr, hc1, hc2⟩ := round_int_small s m hm hL
    obtain ⟨hfin, hval⟩ := toRat_encoded s (F32.leadingBit m + 126)
      (m * 2 ^ (23 - F32.leadingBit m)) (by omega) hc1 (Nat.le_of_lt hc2)
    rw [← hr] at hfin hval
    refine ⟨hfin, m, ?_, ?_⟩
    · rw [hval]
      have hexp : (((F32.leadingBit m + 126 : ℕ) : ℤ) - 149)
          = -(((23 - F32.leadingBit m : ℕ)) : ℤ) := by omega
      have hone : ((m * 2 ^ (23 - F32.leadingBit m) : ℕ) : ℚ)
          * (2 : ℚ) ^ (((F32.leadingBit m + 126 : ℕ) : ℤ) - 149) = (m : ℚ) := by
        rw [hexp, zpow_neg, zpow_natCast]
        push_cast
        field_simp
      split_ifs
      · rw [neg_mul, hone]
      · rw [hone]
    · intro z σ
      rw [sub_self, abs_zero]
      exact abs_nonneg _
  · obtain ⟨sh, hsh⟩ : ∃ sh, F32.leadingBit m = sh + 23 := ⟨F32.leadingBit m - 23, by omega⟩
    have hsh1 : 1 ≤ sh := by omega
    have hsh8 : sh ≤ 8 := by omega
    obtain ⟨hr, hn1, hn2⟩ := round_int_large s m sh hm hsh1 (by omega) hsh
    obtain ⟨c, hcd⟩ : ∃ c, c =
        (if m % 2 ^ sh > 2 ^ (sh - 1) ∨ (m % 2 ^ sh = 2 ^ (sh - 1) ∧ m / 2 ^ sh % 2 = 1)
          then m / 2 ^ sh + 1 else m / 2 ^ sh) := ⟨_, rfl⟩
    rw [← hcd] at hr
    have hu : 2 ^ sh = 2 * 2 ^ (sh - 1) := by
      rw [← Nat.pow_succ']; congr 1; omega
    have hrlt : m % 2 ^ sh < 2 ^ sh := Nat.mod_lt _ (Nat.two_pow_pos sh)
    have hmdecomp : m = m / 2 ^ sh * 2 ^ sh + m % 2 ^ sh := by
      rw [Nat.mul_comm]; exact (Nat.div_add_mod m (2 ^ sh)).symm
    have hcb : 2 ^ 23 ≤ c ∧ c ≤ 2 ^ 24 := by
      rw [hcd]; split_ifs <;> omega
    obtain ⟨hfin, hval⟩ := toRat_encoded s (sh + 149) c (by omega) hcb.1 hcb.2
    rw [← hr] at hfin hval
    refine ⟨hfin, c * 2 ^ sh, ?_, ?_⟩
    · rw [hval]
      have hexp : (((sh + 149 : ℕ) : ℤ) - 149) = (sh : ℤ) := by omega
      rw [hexp, zpow_natCast]
      split_ifs <;> push_cast <;> ring
    · intro z σ
      obtain ⟨e, hed⟩ : ∃ e : ℚ, e = |((c * 2 ^ sh : ℕ) : ℚ) - m| := ⟨_, rfl⟩
      rw [← hed]
      have hmq : (m : ℚ) = ((m / 2 ^ sh : ℕ) : ℚ) * ((2 ^ sh : ℕ) : ℚ) + ((m % 2 ^ sh : ℕ) : ℚ) := by
        have := congrArg (Nat.cast : ℕ → ℚ) hmdecomp
        push_cast at this ⊢
        exact this
      have huq : ((2 ^ sh : ℕ) : ℚ) = 2 * ((2 ^ (sh - 1) : ℕ) : ℚ) := by
        have := congrArg (Nat.cast : ℕ → ℚ) hu
        push_cast at this ⊢
        exact this
      have hrq0 : (0 : ℚ) ≤ ((m % 2 ^ sh : ℕ) : ℚ) := Nat.cast_nonneg _
      have he : e ≤ ((m % 2 ^ sh : ℕ) : ℚ) ∧ e ≤ ((2 ^ sh : ℕ) : ℚ) - ((m % 2 ^ sh : ℕ) : ℚ) := by
        by_cases hup : m % 2 ^ sh > 2 ^ (sh - 1) ∨
            (m % 2 ^ sh = 2 ^ (sh - 1) ∧ m / 2 ^ sh % 2 = 1)
        · rw [if_pos hup] at hcd
          have hge : 2 ^ (sh - 1) ≤ m % 2 ^ sh := by
            rcases hup with h | h
            · exact Nat.le_of_lt h
            · exact Nat.le_of_eq h.1.symm
          have hgeq : ((2 ^ (sh - 1) : ℕ) : ℚ) ≤ ((m % 2 ^ sh : ℕ) : ℚ) := by exact_mod_cast hge
          have hrltq : ((m % 2 ^ sh : ℕ) : ℚ) < ((2 ^ sh : ℕ) : ℚ) := by exact_mod_cast hrlt
          have hval2 : ((c * 2 ^ sh : ℕ) : ℚ) - m
              = ((2 ^ sh : ℕ) : ℚ) - ((m % 2 ^ sh : ℕ) : ℚ) := by
            rw [hcd, hmq]; push_cast; ring
          rw [hed, hval2, abs_of_nonneg (by linarith)]
          constructor <;> linarith
        · rw [if_neg hup] at hcd
          have hle2 : m % 2 ^ sh ≤ 2 ^ (sh - 1) := by
            by_contra hcon
            exact hup (Or.inl (by omega))
          have hleq : ((m % 2 ^ sh : ℕ) : ℚ) ≤ ((2 ^ (sh - 1) : ℕ) : ℚ) := by exact_mod_cast hle2
          have hval2 : ((c * 2 ^ sh : ℕ) : ℚ) - m = -((m % 2 ^ sh : ℕ) : ℚ) := by
            rw [hcd, hmq]; push_cast; ring
          rw [hed, hval2, abs_neg, abs_of_nonneg hrq0]
          constructor <;> linarith
      rcases toRat_grid z σ sh with ⟨j, hj⟩ | hsmall
      · rw [hj]
        exact dist_grid m (2 ^ sh) (m / 2 ^ sh) (m % 2 ^ sh) e hmdecomp he.1 he.2 j
      · apply dist_small m _ e _ hsmall
        have h23 : ((2 ^ (sh + 23) : ℕ) : ℚ) ≤ ((m / 2 ^ sh : ℕ) : ℚ) * ((2 ^ sh : ℕ) : ℚ) := by
          have : 2 ^ (sh + 23) ≤ m / 2 ^ sh * 2 ^ sh := by
            rw [Nat.add_comm, Nat.pow_add]
            exact Nat.mul_le_mul_right _ hn1
          exact_mod_cast this
        linarith [he.1]


theorem toFvec8_lane (w : ivec8) (i : Fin 8) :
    (w.toFvec8).lane i = F32.cvtepi32 (w.lane i) := by
  obtain ⟨⟨a0, a1, a2, a3, a4, a5, a6, a7⟩⟩ := w
  fin_cases i <;> rfl

theorem cvtepi32_nearest (b : Nat) (hb : b < 2 ^ 32) :
    (F32.cvtepi32 b).isFinite = true ∧
    ∀ z : F32, |(F32.cvtepi32 b).toRat - (bitsInt32 b : ℚ)| ≤ |z.toRat - (bitsInt32 b : ℚ)| := by
  have hrange : -2 ^ 31 ≤ bitsInt32 b ∧ bitsInt32 b < 2 ^ 31 := by
    unfold bitsInt32; split_ifs <;> omega
  obtain ⟨n, hn⟩ : ∃ n : Int, n = bitsInt32 b := ⟨_, rfl⟩
  rw [← hn] at hrange
  unfold F32.cvtepi32 F32.ofInt
  rw [← hn]
  by_cases h0 : n = 0
  · rw [if_pos h0, h0]
    refine ⟨by decide, fun z => ?_⟩
    have : (F32.zero false).toRat = 0 := by
      have hs : (F32.zero false).signedSig = 0 := by decide
      unfold F32.toRat
      rw [hs]
      simp
    rw [this]
    simp
  · rw [if_neg h0]
    have hm : 0 < n.natAbs := Int.natAbs_pos.2 h0
    have hle : n.natAbs ≤ 2 ^ 31 := by omega
    obtain ⟨hfin, N, hval, hdist⟩ := round_int_nearest (decide (n < 0)) n.natAbs hm hle
    refine ⟨hfin, fun z => ?_⟩
    rw [hval]
    by_cases hneg : n < 0
    · have hnq : (n : ℚ) = -((n.natAbs : ℕ) : ℚ) := by
        have h : n = -((n.natAbs : ℕ) : ℤ) := by omega
        have h2 : ((-((n.natAbs : ℕ) : ℤ) : ℤ) : ℚ) = -((n.natAbs : ℕ) : ℚ) := by
          rw [Int.cast_neg, Int.cast_natCast]
        exact (congrArg (Int.cast : ℤ → ℚ) h).trans h2
      have h1 := hdist z true
      simp only [hneg, decide_True, if_true] at h1 ⊢
      rw [hnq]
      have e1 : -(N : ℚ) - -((n.natAbs : ℕ) : ℚ) = -((N : ℚ) - ((n.natAbs : ℕ) : ℚ)) := by ring
      have e2 : z.toRat - -((n.natAbs : ℕ) : ℚ) = -(-z.toRat - ((n.natAbs : ℕ) : ℚ)) := by ring
      rw [e1, e2, abs_neg, abs_neg]
      exact h1
    · have hnq : (n : ℚ) = ((n.natAbs : ℕ) : ℚ) := by
        have h : n = ((n.natAbs : ℕ) : ℤ) := by omega
        have h2 : ((((n.natAbs : ℕ) : ℤ) : ℤ) : ℚ) = ((n.natAbs : ℕ) : ℚ) := by
          rw [Int.cast_natCast]
        exact (congrArg (Int.cast : ℤ → ℚ) h).trans h2
      have h1 := hdist z false
      simp only [hneg, decide_False, if_false, Bool.false_eq_true] at h1 ⊢
      rw [hnq]
      exact h1

/-- C15: conversion of an `fvec8` to an `ivec8` is a truncating numeric
conversion: in every lane that holds a finite value whose truncation is a
32-bit integer, the resulting `int` is the value rounded toward zero.
Conversion of an `ivec8` (lanes being 32-bit patterns) to an `fvec8` gives in
every lane a finite float to whose value no finite float is closer to the
integer. -/
theorem conversion_numeric (v : fvec8 F32) (w : ivec8) (i : Fin 8) :
    ((v.lane i).isFinite = true → IsInt32 (truncQ (v.lane i).toRat) →
      bitsInt32 ((v.toIvec8).lane i) = truncQ (v.lane i).toRat) ∧
    (w.lane i < 2 ^ 32 →
      ((w.toFvec8).lane i).isFinite = true ∧
      ∀ z : F32, z.isFinite = true →
        |((w.toFvec8).lane i).toRat - (bitsInt32 (w.lane i) : ℚ)|
          ≤ |z.toRat - (bitsInt32 (w.lane i) : ℚ)|) := by
  constructor
  · intro hf hr
    rw [toIvec8_lane]
    exact cvtt_trunc _ hf hr
  · intro hb
    rw [toFvec8_lane]
    obtain ⟨h1, h2⟩ := cvtepi32_nearest _ hb
    exact ⟨h1, fun z _ => h2 z⟩

/-- Witness for C15: `-2.5f` converts to `-2`, and `16777217 = 2^24 + 1`
converts to a float at least as close to it as `16777218.0f`. -/
theorem conversion_numeric_witness :
    (((fvec8.mk1 (⟨0xC0200000⟩ : F32)).lane 0).isFinite = true ∧
      IsInt32 (truncQ ((fvec8.mk1 (⟨0xC0200000⟩ : F32)).lane 0).toRat) ∧
      bitsInt32 (((fvec8.mk1 (⟨0xC0200000⟩ : F32)).toIvec8).lane 0)
        = truncQ ((fvec8.mk1 (⟨0xC0200000⟩ : F32)).lane 0).toRat) ∧
    bitsInt32 (((fvec8.mk1 (⟨0xC0200000⟩ : F32)).toIvec8).lane 0) = -2 ∧
    ((ivec8.mk1 16777217).lane 0 < 2 ^ 32 ∧ (F32.mk 0x4B800001).isFinite = true ∧
      |(((ivec8.mk1 16777217).toFvec8).lane 0).toRat
          - (bitsInt32 ((ivec8.mk1 16777217).lane 0) : ℚ)|
        ≤ |(F32.mk 0x4B800001).toRat - (bitsInt32 ((ivec8.mk1 16777217).lane 0) : ℚ)|) ∧
    ((ivec8.mk1 16777217).toFvec8).lane 0 = ⟨0x4B800000⟩ :=
  ⟨⟨by decide, by rw [truncQ_toRat]; decide,
    (conversion_numeric (fvec8.mk1 ⟨0xC0200000⟩) (ivec8.mk1 0) 0).1 (by decide)
      (by rw [truncQ_toRat]; decide)⟩,
   by decide,
   ⟨by decide, by decide,
    ((conversion_numeric (fvec8.mk1 ⟨0⟩) (ivec8.mk1 16777217) 0).2 (by decide)).2
      ⟨0x4B800001⟩ (by decide)⟩,
   by decide⟩

/-- C16 (amended): conversion between `fvec8` and `ivec8` is a numeric value
conversion, not a bitcast. Converting `v` to `ivec8` yields in every lane the
lane's value truncated toward zero when the lane is finite and the
truncation is a 32-bit integer, and the pattern `0x80000000` otherwise (NaN,
infinity, out of range); converting `w` (lanes being 32-bit patterns) to
`fvec8` yields in every lane the finite float nearest to the integer
value. -/
theorem conversion_by_value (v : fvec8 F32) (w : ivec8) (i : Fin 8) :
    (v.toIvec8).lane i = F32.cvtt (v.lane i) ∧
    ((v.lane i).isFinite = false → (v.toIvec8).lane i = 0x80000000) ∧
    ((v.lane i).isFinite = true → ¬ IsInt32 (truncQ (v.lane i).toRat) →
      (v.toIvec8).lane i = 0x80000000) ∧
    ((v.lane i).isFinite = true → IsInt32 (truncQ (v.lane i).toRat) →
      (v.toIvec8).lane i = int32Bits (truncQ (v.lane i).toRat)) ∧
    (w.toFvec8).lane i = F32.ofInt (bitsInt32 (w.lane i)) ∧
    (w.lane i < 2 ^ 32 →
      ∀ z : F32, z.isFinite = true →
        |((w.toFvec8).lane i).toRat - (bitsInt32 (w.lane i) : ℚ)|
          ≤ |z.toRat - (bitsInt32 (w.lane i) : ℚ)|) := by
  refine ⟨toIvec8_lane v i, ?_, ?_, ?_, toFvec8_lane w i, ?_⟩
  · intro hf
    rw [toIvec8_lane]
    exact (cvtt_special _).1 hf
  · intro hf hr
    rw [toIvec8_lane]
    exact (cvtt_special _).2 hf hr
  · intro hf hr
    rw [toIvec8_lane]
    have hni : ((v.lane i).isNaN || (v.lane i).isInf) = false := by
      cases hc : ((v.lane i).isNaN || (v.lane i).isInf)
      · rfl
      · simp [F32.isFinite, hc] at hf
    have ht := truncQ_toRat (v.lane i)
    unfold F32.cvtt
    rw [hni]
    simp only [Bool.false_eq_true, if_false]
    rw [← ht, if_pos hr]
  · intro hb z _
    rw [toFvec8_lane]
    exact (cvtepi32_nearest _ hb).2 z

/-- Witness for C16 (amended): a NaN lane, the out-of-range lane `2^31`, the
lane `1.0f`, and the integer lane 1. -/
theorem conversion_by_value_witness :
    (((fvec8.mk1 F32.qnan).lane 0).isFinite = false ∧
      ((fvec8.mk1 F32.qnan).toIvec8).lane 0 = 0x80000000) ∧
    (((fvec8.mk1 (⟨0x4F000000⟩ : F32)).lane 0).isFinite = true ∧
      ¬ IsInt32 (truncQ ((fvec8.mk1 (⟨0x4F000000⟩ : F32)).lane 0).toRat) ∧
      ((fvec8.mk1 (⟨0x4F000000⟩ : F32)).toIvec8).lane 0 = 0x80000000) ∧
    (((fvec8.mk1 (F32.ofNat 1)).lane 0).isFinite = true ∧
      IsInt32 (truncQ ((fvec8.mk1 (F32.ofNat 1)).lane 0).toRat) ∧
      ((fvec8.mk1 (F32.ofNat 1)).toIvec8).lane 0
        = int32Bits (truncQ ((fvec8.mk1 (F32.ofNat 1)).lane 0).toRat)) ∧
    ((ivec8.mk1 1).lane 0 < 2 ^ 32 ∧ (F32.ofNat 2).isFinite = true ∧
      |(((ivec8.mk1 1).toFvec8).lane 0).toRat - (bitsInt32 ((ivec8.mk1 1).lane 0) : ℚ)|
        ≤ |(F32.ofNat 2).toRat - (bitsInt32 ((ivec8.mk1 1).lane 0) : ℚ)|) :=
  ⟨⟨by decide, (conversion_by_value (fvec8.mk1 F32.qnan) (ivec8.mk1 0) 0).2.1 (by decide)⟩,
   ⟨by decide, by rw [truncQ_toRat]; decide,
    (conversion_by_value (fvec8.mk1 ⟨0x4F000000⟩) (ivec8.mk1 0) 0).2.2.1 (by decide)
      (by rw [truncQ_toRat]; decide)⟩,
   ⟨by decide, by rw [truncQ_toRat]; decide,
    (conversion_by_value (fvec8.mk1 (F32.ofNat 1)) (ivec8.mk1 0) 0).2.2.2.1 (by decide)
      (by rw [truncQ_toRat]; decide)⟩,
   ⟨by decide, by decide,
    (conversion_by_value (fvec8.mk1 ⟨0⟩) (ivec8.mk1 1) 0).2.2.2.2.2 (by decide)
      (F32.ofNat 2) (by decide)⟩⟩

/-- C16 (as stated) fails: converting `fvec8(1.0f)` to `ivec8` gives lanes
holding the integer 1, not the pattern `0x3F800000` of `1.0f`; and converting
`ivec8(1)` to `fvec8` gives lanes holding `0x3F800000`, not the pattern 1. -/
theorem conversion_bitcast_counterexample :
    ((fvec8.mk1 (F32.ofNat 1)).lane 0).bits = 0x3F800000 ∧
    ((fvec8.mk1 (F32.ofNat 1)).toIvec8).lane 0 = 1 ∧
    ((fvec8.mk1 (F32.ofNat 1)).toIvec8).lane 0 ≠ ((fvec8.mk1 (F32.ofNat 1)).lane 0).bits ∧
    (ivec8.mk1 1).lane 0 = 1 ∧
    (((ivec8.mk1 1).toFvec8).lane 0).bits = 0x3F800000 ∧
    (((ivec8.mk1 1).toFvec8).lane 0).bits ≠ (ivec8.mk1 1).lane 0 := by
  decide

end OpenMM
